import Mathlib

/-!
Verification of the 2d-floor-plan geometry reconstruction pipeline
(`backend/services/hybrid/*` and `backend/services/room_detection.py`).

The Python source is shallowly embedded as follows:

* pixel coordinates and all numeric dictionary values are modelled as
  rationals (`ℚ`); the Python floats of the source are idealised to exact
  arithmetic, which is the reading the specification itself uses;
* `math.sqrt` / `np.linalg.norm` are modelled by `Real.sqrt` applied to the
  (rational) squared quantity, so distance values live in `ℝ`;
* `round(x, n)` (Python) is modelled by rounding to the nearest multiple of
  `10⁻ⁿ`; Python rounds ties to even, our model rounds ties up, and every
  concrete input used in a theorem below is away from a tie, where the two
  agree;
* `int(x)` (Python) is modelled by truncation toward zero (`pyTrunc`);
* OpenCV / numpy / ML primitives (contour extraction, Hough transform,
  YOLO, `pointPolygonTest`, image encoding) are opaque collaborators:
  they enter the embedding as explicit inputs or oracle parameters, and the
  repository logic that consumes their output is embedded faithfully.

Definitions keep the names of the source functions they embed.
-/

/-- Python `round(x, ndigits)` on a rational value: round to the nearest
multiple of `10 ^ (-ndigits)`.  Exact match with CPython away from ties. -/
def pyRound (x : ℚ) (ndigits : ℕ) : ℚ :=
  ((round (x * 10 ^ ndigits) : ℤ) : ℚ) / 10 ^ ndigits

/-- Python `int(x)` applied to a float: truncation toward zero. -/
def pyTrunc (x : ℚ) : ℤ :=
  if 0 ≤ x then ⌊x⌋ else ⌈x⌉

/-- A pixel-space point `[x, y]`. -/
abbrev Point : Type := ℚ × ℚ

/-- Squared euclidean distance between two points (exact, rational). -/
def sqDist (p q : Point) : ℚ :=
  (p.1 - q.1) ^ 2 + (p.2 - q.2) ^ 2

/-- Euclidean distance between two points, the embedding of
`math.sqrt((x2-x1)**2 + (y2-y1)**2)` and of `np.linalg.norm(a - b)`. -/
noncomputable def distR (p q : Point) : ℝ :=
  Real.sqrt ((sqDist p q : ℚ) : ℝ)

/-! ### Scale conversion (`hybrid/scale_conversion.py`) -/

/-- A room dictionary as produced by `detect_rooms`
(`id`, `polygon`, `area_px`, `num_corners`). -/
structure RoomRec where
  id : ℕ
  polygon : List Point
  area_px : ℤ
  num_corners : ℕ
deriving DecidableEq

/-- A wall dictionary as consumed by `apply_scale_conversion`
(`start`, `end`, `thickness_px`, `length`, `angle`); the Python key `end`
is a Lean keyword and is embedded as `end_`. -/
structure WallRec where
  start : Point
  end_ : Point
  thickness_px : ℚ
  length : ℚ
  angle : ℚ
deriving DecidableEq

/-- A door / window dictionary (`element_detection.py` shape plus the
optional association keys; a `none` field models an absent key). -/
structure ElementRec where
  type : Option String
  center : Point
  width : ℚ
  height : ℚ
  orientation : String
  confidence : ℚ
  nearest_wall_id : Option ℤ
  connects_rooms : Option (List ℕ)
  room_id : Option (List ℕ)
deriving DecidableEq

/-- The `metadata` block of the final JSON. -/
structure MetadataM where
  scale_m_per_px : ℚ
  total_rooms : ℕ
  total_walls : ℕ
  total_doors : ℕ
  total_windows : ℕ
deriving DecidableEq

/-- A scaled room entry of the final JSON. -/
structure RoomM where
  id : ℕ
  polygon : List Point
  area_m2 : ℚ
  num_corners : ℕ
deriving DecidableEq

/-- A scaled wall entry of the final JSON. -/
structure WallM where
  start : Point
  end_ : Point
  thickness_m : ℚ
  length_m : ℚ
  angle : ℚ
deriving DecidableEq

/-- A scaled door / window entry of the final JSON; `none` models an
absent optional key. -/
structure ElementM where
  type : String
  position : Point
  width_m : ℚ
  height_m : ℚ
  orientation : String
  confidence : ℚ
  nearest_wall_id : Option ℤ
  connects_rooms : Option (List ℕ)
  room_id : Option (List ℕ)
deriving DecidableEq

/-- The complete JSON structure returned by `apply_scale_conversion`. -/
structure ScaledResult where
  metadata : MetadataM
  rooms : List RoomM
  walls : List WallM
  doors : List ElementM
  windows : List ElementM
deriving DecidableEq

/-- The inner helper `px_to_m` of `apply_scale_conversion`:
`round(value * scale_m_per_px, 3)`. -/
def px_to_m (scale_m_per_px : ℚ) (value : ℚ) : ℚ :=
  pyRound (value * scale_m_per_px) 3

/-- The inner helper `point_px_to_m` of `apply_scale_conversion`. -/
def point_px_to_m (scale_m_per_px : ℚ) (point : Point) : Point :=
  (px_to_m scale_m_per_px point.1, px_to_m scale_m_per_px point.2)

/-- The room branch of the `apply_scale_conversion` loop; the source line is
`px_to_m(room['area_px']) * scale_m_per_px  # Area needs double conversion`. -/
def room_px_to_m (scale_m_per_px : ℚ) (room : RoomRec) : RoomM :=
  { id := room.id
    polygon := room.polygon.map (point_px_to_m scale_m_per_px)
    area_m2 := px_to_m scale_m_per_px (room.area_px : ℚ) * scale_m_per_px
    num_corners := room.num_corners }

/-- The wall branch of the `apply_scale_conversion` loop. -/
def wall_px_to_m (scale_m_per_px : ℚ) (wall : WallRec) : WallM :=
  { start := point_px_to_m scale_m_per_px wall.start
    end_ := point_px_to_m scale_m_per_px wall.end_
    thickness_m := px_to_m scale_m_per_px wall.thickness_px
    length_m := px_to_m scale_m_per_px wall.length
    angle := wall.angle }

/-- The door branch of the `apply_scale_conversion` loop: the
`connects_rooms` key is copied only when present and truthy (non-empty),
the `nearest_wall_id` key only when present and `>= 0`. -/
def door_px_to_m (scale_m_per_px : ℚ) (door : ElementRec) : ElementM :=
  { type := door.type.getD "door"
    position := point_px_to_m scale_m_per_px door.center
    width_m := px_to_m scale_m_per_px door.width
    height_m := px_to_m scale_m_per_px door.height
    orientation := door.orientation
    confidence := door.confidence
    connects_rooms :=
      match door.connects_rooms with
      | some rs => if rs = [] then none else some rs
      | none => none
    nearest_wall_id :=
      match door.nearest_wall_id with
      | some i => if 0 ≤ i then some i else none
      | none => none
    room_id := none }

/-- The window branch of the `apply_scale_conversion` loop (`room_id`
instead of `connects_rooms`, default type `"window"`). -/
def window_px_to_m (scale_m_per_px : ℚ) (window : ElementRec) : ElementM :=
  { type := window.type.getD "window"
    position := point_px_to_m scale_m_per_px window.center
    width_m := px_to_m scale_m_per_px window.width
    height_m := px_to_m scale_m_per_px window.height
    orientation := window.orientation
    confidence := window.confidence
    connects_rooms := none
    nearest_wall_id :=
      match window.nearest_wall_id with
      | some i => if 0 ≤ i then some i else none
      | none => none
    room_id :=
      match window.room_id with
      | some rs => if rs = [] then none else some rs
      | none => none }

/-- `apply_scale_conversion` (`hybrid/scale_conversion.py`): convert all
pixel measurements to meters and build the final JSON structure. -/
def apply_scale_conversion (rooms : List RoomRec) (walls : List WallRec)
    (doors : List ElementRec) (windows : List ElementRec)
    (scale_m_per_px : ℚ) : ScaledResult :=
  let rooms_m := rooms.map (room_px_to_m scale_m_per_px)
  let walls_m := walls.map (wall_px_to_m scale_m_per_px)
  let doors_m := doors.map (door_px_to_m scale_m_per_px)
  let windows_m := windows.map (window_px_to_m scale_m_per_px)
  { metadata :=
      { scale_m_per_px := scale_m_per_px
        total_rooms := rooms_m.length
        total_walls := walls_m.length
        total_doors := doors_m.length
        total_windows := windows_m.length }
    rooms := rooms_m
    walls := walls_m
    doors := doors_m
    windows := windows_m }
/-! ### Association (`hybrid/association.py`) -/

/-- `point_to_line_distance` (`hybrid/association.py`): perpendicular
distance from a point to a line segment, with the projection parameter `t`
clamped to `[0, 1]` and a zero-length guard returning the distance to the
first endpoint. -/
noncomputable def point_to_line_distance (point line_start line_end : Point) : ℝ :=
  let px : ℝ := (point.1 : ℚ)
  let py : ℝ := (point.2 : ℚ)
  let x1 : ℝ := (line_start.1 : ℚ)
  let y1 : ℝ := (line_start.2 : ℚ)
  let x2 : ℝ := (line_end.1 : ℚ)
  let y2 : ℝ := (line_end.2 : ℚ)
  let line_len : ℝ := Real.sqrt ((x2 - x1) ^ 2 + (y2 - y1) ^ 2)
  if line_len = 0 then Real.sqrt ((px - x1) ^ 2 + (py - y1) ^ 2)
  else
    let t : ℝ :=
      max 0 (min 1 (((px - x1) * (x2 - x1) + (py - y1) * (y2 - y1)) / line_len ^ 2))
    let proj_x : ℝ := x1 + t * (x2 - x1)
    let proj_y : ℝ := y1 + t * (y2 - y1)
    Real.sqrt ((px - proj_x) ^ 2 + (py - proj_y) ^ 2)

/-- Rational squared value of `point_to_line_distance` (proof device: the
clamped projection is rational, only the final square root is not). -/
def ptldSq (point line_start line_end : Point) : ℚ :=
  let d := sqDist line_start line_end
  if d = 0 then sqDist point line_start
  else
    let t : ℚ :=
      max 0 (min 1 (((point.1 - line_start.1) * (line_end.1 - line_start.1) +
        (point.2 - line_start.2) * (line_end.2 - line_start.2)) / d))
    sqDist point
      (line_start.1 + t * (line_end.1 - line_start.1),
       line_start.2 + t * (line_end.2 - line_start.2))

/-- The running-minimum loop of `find_nearest_wall` inside
`associate_elements_with_walls`: `min_dist` starts at `float('inf')`
(modelled as `none`), `nearest_id` at `-1`, and a wall strictly closer than
the current minimum replaces it. -/
noncomputable def find_nearest_wall_go (center : Point) :
    List WallRec → ℕ → Option ℝ → ℤ → Option ℝ × ℤ
  | [], _, min_dist, nearest_id => (min_dist, nearest_id)
  | wall :: rest, i, min_dist, nearest_id =>
    let dist := point_to_line_distance center wall.start wall.end_
    match min_dist with
    | none => find_nearest_wall_go center rest (i + 1) (some dist) (i : ℤ)
    | some m =>
      if dist < m then find_nearest_wall_go center rest (i + 1) (some dist) (i : ℤ)
      else find_nearest_wall_go center rest (i + 1) (some m) nearest_id

/-- `find_nearest_wall` (inner function of `associate_elements_with_walls`):
index of the nearest wall if its distance is below `max_distance`, else `-1`. -/
noncomputable def find_nearest_wall (element_center : Point)
    (walls : List WallRec) (max_distance : ℝ) : ℤ :=
  match find_nearest_wall_go element_center walls 0 none (-1) with
  | (none, _) => -1
  | (some m, nearest_id) => if m < max_distance then nearest_id else -1

/-- `associate_elements_with_walls` (`hybrid/association.py`): store
`find_nearest_wall` under the `nearest_wall_id` key of every door and
window (the source default for `max_distance` is `15.0`). -/
noncomputable def associate_elements_with_walls (doors windows : List ElementRec)
    (walls : List WallRec) (max_distance : ℝ) :
    List ElementRec × List ElementRec :=
  (doors.map (fun door =>
      { door with nearest_wall_id := some (find_nearest_wall door.center walls max_distance) }),
   windows.map (fun window =>
      { window with nearest_wall_id := some (find_nearest_wall window.center walls max_distance) }))

/-- `associate_elements_with_rooms` (`hybrid/association.py`): a room is
connected when the absolute `cv2.pointPolygonTest` signed distance (an
opaque collaborator, passed as an oracle) is below 20 pixels; doors store
the list under `connects_rooms`, windows under `room_id`. -/
noncomputable def associate_elements_with_rooms
    (pointPolygonTest : List Point → Point → ℝ)
    (doors windows : List ElementRec) (rooms : List RoomRec) :
    List ElementRec × List ElementRec :=
  let find_connected_rooms := fun (center : Point) =>
    ((rooms.filter (fun room =>
        decide (|pointPolygonTest room.polygon center| < 20))).map
      (fun room => room.id))
  (doors.map (fun door =>
      { door with connects_rooms := some (find_connected_rooms door.center) }),
   windows.map (fun window =>
      { window with room_id := some (find_connected_rooms window.center) }))

/-- Placeholder wall record (proof device for `List.getD` indexing). -/
def dummyWall : WallRec :=
  { start := (0, 0), end_ := (0, 0), thickness_px := 0, length := 0, angle := 0 }

/-- Placeholder element record (proof device for `List.getD` indexing). -/
def dummyElem : ElementRec :=
  { type := none, center := (0, 0), width := 0, height := 0, orientation := ""
    confidence := 0, nearest_wall_id := none, connects_rooms := none, room_id := none }

/-- Placeholder scaled element (proof device for `List.getD` indexing). -/
def dummyElemM : ElementM :=
  { type := "", position := (0, 0), width_m := 0, height_m := 0, orientation := ""
    confidence := 0, nearest_wall_id := none, connects_rooms := none, room_id := none }

/-- First index of a strict running minimum of a list of distances
(proof device: the value `find_nearest_wall`'s loop converges to). -/
noncomputable def argminStrict : List ℝ → Option (ℕ × ℝ)
  | [] => none
  | d :: rest =>
    match argminStrict rest with
    | none => some (0, d)
    | some (j, m) => if m < d then some (j + 1, m) else some (0, d)

/-! ### Wall detection (`hybrid/wall_detection.py`) -/

/-- A line dictionary of `wall_detection.py` (`start`, `end`, `angle`,
`length`, and `thickness_px` when present; merged lines drop the
`thickness_px` key, hence the `Option`). -/
structure Line where
  start : Point
  end_ : Point
  angle : ℚ
  length : ℝ
  thickness_px : Option ℚ

/-- The angle difference computed by `merge_collinear_lines`:
`abs(a1 - a2)`, folded by `360 - diff` when above 180. -/
def angle_diff_norm (a1 a2 : ℚ) : ℚ :=
  let d := |a1 - a2|
  if d > 180 then 360 - d else d

/-- The pair condition of `merge_collinear_lines`: angle difference below
the angle threshold, and the minimum of the two endpoint distances
`norm(end1 - start2)` and `norm(start1 - end2)` below the distance
threshold. -/
def collinear_close (line1 line2 : Line)
    (angle_threshold distance_threshold : ℚ) : Prop :=
  angle_diff_norm line1.angle line2.angle < angle_threshold ∧
    min (distR line1.end_ line2.start) (distR line1.start line2.end_) <
      (distance_threshold : ℝ)

noncomputable instance (line1 line2 : Line) (a d : ℚ) :
    Decidable (collinear_close line1 line2 a d) := by
  unfold collinear_close; infer_instance

/-- The inner `j`-loop of `merge_collinear_lines`: scan the lines after
`i`, skip indices already `used`, append matching lines to the group and
mark them used. -/
noncomputable def merge_collect (line1 : Line)
    (angle_threshold distance_threshold : ℚ)
    (rest : List (ℕ × Line)) (used : Finset ℕ) :
    List (ℕ × Line) × Finset ℕ :=
  rest.foldl
    (fun acc jl =>
      if jl.1 ∈ acc.2 then acc
      else if collinear_close line1 jl.2 angle_threshold distance_threshold then
        (acc.1 ++ [jl], insert jl.1 acc.2)
      else acc)
    ([], used)

/-- The ordered list of index pairs `(i, j)`, `i < j < n`, in the
iteration order of the two nested `range` loops of the group-merge step. -/
def pairIndices (n : ℕ) : List (ℕ × ℕ) :=
  (List.range n).flatMap
    (fun i => (List.range' (i + 1) (n - (i + 1))).map (fun j => (i, j)))

/-- The most-distant-pair scan of `merge_collinear_lines`: running maximum
over all index pairs, starting from `max_dist = 0` and the first two
points, updating on strict improvement. -/
noncomputable def max_dist_pair (all_points : List Point) : ℝ × Point × Point :=
  (pairIndices all_points.length).foldl
    (fun acc ij =>
      let dist := distR (all_points.getD ij.1 (0, 0)) (all_points.getD ij.2 (0, 0))
      if acc.1 < dist then
        (dist, all_points.getD ij.1 (0, 0), all_points.getD ij.2 (0, 0))
      else acc)
    (0, all_points.getD 0 (0, 0), all_points.getD 1 (0, 0))

/-- Collapse one group (`line1` plus the lines collected into its group):
a single-member group is appended unchanged, a larger group becomes the
segment between the two most distant endpoints, with the first member's
angle and the recomputed length (and no `thickness_px` key). -/
noncomputable def merge_group (line1 : Line) (grouped : List Line) : Line :=
  if grouped.isEmpty then line1
  else
    let all_points := (line1 :: grouped).flatMap (fun l => [l.start, l.end_])
    let m := max_dist_pair all_points
    { start := m.2.1, end_ := m.2.2, angle := line1.angle, length := m.1,
      thickness_px := none }

/-- The outer `i`-loop of `merge_collinear_lines` over the indexed lines,
threading the `used` set. -/
noncomputable def merge_collinear_go (angle_threshold distance_threshold : ℚ) :
    List (ℕ × Line) → Finset ℕ → List Line
  | [], _ => []
  | (i, line1) :: rest, used =>
    if i ∈ used then merge_collinear_go angle_threshold distance_threshold rest used
    else
      let cu := merge_collect line1 angle_threshold distance_threshold rest (insert i used)
      merge_group line1 (cu.1.map Prod.snd) ::
        merge_collinear_go angle_threshold distance_threshold rest cu.2

/-- `merge_collinear_lines` (`hybrid/wall_detection.py`): merge lines that
are collinear (close angles and close endpoints); source defaults are
`angle_threshold = 5.0`, `distance_threshold = 20.0`. -/
noncomputable def merge_collinear_lines (lines : List Line)
    (angle_threshold distance_threshold : ℚ) : List Line :=
  if lines.isEmpty then []
  else merge_collinear_go angle_threshold distance_threshold lines.enum ∅

/-- `math.atan2`, by the usual case split over `Real.arctan`; range
`(-π, π]`. -/
noncomputable def atan2 (y x : ℝ) : ℝ :=
  if 0 < x then Real.arctan (y / x)
  else if x < 0 then
    (if 0 ≤ y then Real.arctan (y / x) + Real.pi
     else Real.arctan (y / x) - Real.pi)
  else if 0 < y then Real.pi / 2
  else if y < 0 then -(Real.pi / 2)
  else 0

/-- Python `round(x, 2)` applied to a real intermediate; returns the exact
rational value of the rounded float (ties rounded up, all uses below are
away from ties). -/
noncomputable def pyRound2R (x : ℝ) : ℚ :=
  ((round (x * 100) : ℤ) : ℚ) / 100

/-- The per-line conversion loop of `detect_walls`: a raw Hough quadruple
`(x1, y1, x2, y2)` becomes a structured line with the angle
`degrees(atan2(y2-y1, x2-x1))` normalized by `+180` when negative and
rounded to 2 decimals, the length `sqrt((x2-x1)**2 + (y2-y1)**2)` rounded
to 2 decimals, and the shared thickness estimate. -/
noncomputable def toWallLine (line : ℤ × ℤ × ℤ × ℤ) (wall_thickness_px : ℕ) : Line :=
  let x1 := line.1
  let y1 := line.2.1
  let x2 := line.2.2.1
  let y2 := line.2.2.2
  let angle0 : ℝ := atan2 ((y2 - y1 : ℤ) : ℝ) ((x2 - x1 : ℤ) : ℝ) * 180 / Real.pi
  let angle : ℝ := if angle0 < 0 then angle0 + 180 else angle0
  let length : ℝ := Real.sqrt (((x2 - x1 : ℤ) : ℝ) ^ 2 + ((y2 - y1 : ℤ) : ℝ) ^ 2)
  { start := ((x1 : ℚ), (y1 : ℚ))
    end_ := ((x2 : ℚ), (y2 : ℚ))
    angle := pyRound2R angle
    length := ((pyRound2R length : ℚ) : ℝ)
    thickness_px := some (wall_thickness_px : ℚ) }

/-- `detect_walls` (`hybrid/wall_detection.py`) downstream of the opaque
`cv2.Canny` + `cv2.HoughLinesP` call, whose raw output is the input here
(`None` is modelled by the empty list): structure every raw line and merge
collinear ones with the default thresholds. -/
noncomputable def detect_walls (hough_lines : List (ℤ × ℤ × ℤ × ℤ))
    (wall_thickness_px : ℕ) : List Line :=
  let wall_lines := hough_lines.map (fun l => toWallLine l wall_thickness_px)
  merge_collinear_lines wall_lines 5 20

/-! ### Room detection (`hybrid/room_detection.py`) -/

/-- One contour as returned by the opaque `cv2.findContours`, together
with the opaque measurements `detect_rooms` takes of it:
`cv2.contourArea`, `cv2.arcLength`, and `cv2.approxPolyDP` as a function
of the epsilon that `detect_rooms` chooses. -/
structure Contour where
  area : ℚ
  arcLength : ℚ
  approxPolyDP : ℚ → List (ℤ × ℤ)

/-- The contour loop of `detect_rooms`: skip contours below the area
floor, approximate with `epsilon = 0.01 * perimeter`, skip polygons with
fewer than 3 corners, and number the survivors consecutively. -/
def detect_rooms_go (min_room_area : ℚ) : List Contour → ℕ → List RoomRec
  | [], _ => []
  | cnt :: rest, room_id =>
    if cnt.area < min_room_area then detect_rooms_go min_room_area rest room_id
    else
      let approx := cnt.approxPolyDP (1 / 100 * cnt.arcLength)
      if approx.length < 3 then detect_rooms_go min_room_area rest room_id
      else
        { id := room_id
          polygon := approx.map (fun p => ((p.1 : ℚ), (p.2 : ℚ)))
          area_px := pyTrunc cnt.area
          num_corners := approx.length } :: detect_rooms_go min_room_area rest (room_id + 1)

/-- `detect_rooms` (`hybrid/room_detection.py`): detect rooms as closed
polygons; the minimum room area is `min_area_ratio` times the total image
area `shape[0] * shape[1]` (source default ratio `0.001`). -/
def detect_rooms (shape : ℕ × ℕ) (contours : List Contour)
    ( min_area_ratio : ℚ) : List RoomRec :=
  let total_area : ℚ := ((shape.1 : ℚ) * (shape.2 : ℚ))
  detect_rooms_go (total_area * min_area_ratio) contours 0

/-- Whether a contour passes both filters of `detect_rooms` (proof
device, used to count the surviving contours). -/
def room_contour_pass (min_room_area : ℚ) (cnt : Contour) : Bool :=
  decide (min_room_area ≤ cnt.area) &&
    decide (3 ≤ (cnt.approxPolyDP (1 / 100 * cnt.arcLength)).length)

/-! ### Preprocessing (`hybrid/preprocessing.py`) -/

/-- `np.median` on a list of numbers: middle element of the sorted list,
or the mean of the two middle elements for even length. -/
def npMedian (values : List ℚ) : ℚ :=
  let s := values.mergeSort (fun a b => decide (a ≤ b))
  if values.length % 2 = 1 then s.getD (values.length / 2) 0
  else (s.getD (values.length / 2 - 1) 0 + s.getD (values.length / 2) 0) / 2

/-- `estimate_wall_thickness` (`hybrid/preprocessing.py`) downstream of
the opaque morphology + `cv2.findContours` + `cv2.boundingRect` calls: the
input is the list of bounding rectangles `(x, y, w, h)` of the detected
wall components; keep the minor dimensions strictly between 5 and 50 and
return the truncated median, or the default 12 when nothing survives.
The candidate filter (the `widths` list of the source loop) is named
separately so theorems can speak about it. -/
def wall_width_candidates (wall_components : List (ℕ × ℕ × ℕ × ℕ)) : List ℕ :=
  (wall_components.map (fun r => min r.2.2.1 r.2.2.2)).filter
    (fun thickness => decide (5 < thickness ∧ thickness < 50))

/-- The final branch of `estimate_wall_thickness`: truncated median of the
surviving widths, or the fixed default 12 when none survive. -/
def estimate_wall_thickness (wall_components : List (ℕ × ℕ × ℕ × ℕ)) : ℤ :=
  let widths := wall_width_candidates wall_components
  if widths.isEmpty then 12
  else pyTrunc (npMedian (widths.map (fun t : ℕ => (t : ℚ))))

/-! ### Pipeline (`hybrid/pipeline.py`) and `room_detection.py` -/

/-- A decoded raster image; its content is opaque to every claim below. -/
abbrev Image : Type := List (List ℕ)

/-- The `grayscale` / `binary` / `cleaned` masks of
`preprocess_blueprint`. -/
structure PreprocessedMasks where
  grayscale : Image
  binary : Image
  cleaned : Image

/-- The opaque OpenCV / YOLO collaborators of the hybrid pipeline, passed
as oracles; the repository logic around them is embedded above. -/
structure PipelineOracles where
  preprocess_blueprint : Image → PreprocessedMasks
  wall_components : Image → List (ℕ × ℕ × ℕ × ℕ)
  detect_walls_stage : PreprocessedMasks → ℤ → List WallRec
  mask_shape : Image → ℕ × ℕ
  findContours : Image → List Contour
  detect_doors_windows : Image → List ElementRec × List ElementRec
  pointPolygonTest : List Point → Point → ℝ
  create_annotated_overlay :
    Image → List RoomRec → List WallRec → List ElementRec → List ElementRec → ℚ → Image

/-- The value returned by `hybrid_floor_plan_analysis`: the scaled JSON
plus the annotated overlay stored under the `annotated_image` key. -/
structure HybridResult where
  json : ScaledResult
  annotated_image : Image

/-- `hybrid_floor_plan_analysis` (`hybrid/pipeline.py`): the complete
hybrid pipeline.  Python surfaces failures as exceptions, so the result is
an `Except`; the body runs all seven steps unconditionally and never
raises, in particular it contains no validation of `scale_m_per_px`. -/
noncomputable def hybrid_floor_plan_analysis (o : PipelineOracles)
    (image_bgr : Image) (scale_m_per_px : ℚ) : Except String HybridResult :=
  let preprocessed := o.preprocess_blueprint image_bgr
  let wall_thickness := estimate_wall_thickness (o.wall_components preprocessed.cleaned)
  let walls := o.detect_walls_stage preprocessed wall_thickness
  let rooms := detect_rooms (o.mask_shape preprocessed.cleaned)
    (o.findContours preprocessed.cleaned) (1 / 1000)
  let elements := o.detect_doors_windows image_bgr
  let dw_walls := associate_elements_with_walls elements.1 elements.2 walls 15
  let dw_rooms := associate_elements_with_rooms o.pointPolygonTest dw_walls.1 dw_walls.2 rooms
  let final_json := apply_scale_conversion rooms walls dw_rooms.1 dw_rooms.2 scale_m_per_px
  let overlay_image :=
    o.create_annotated_overlay image_bgr rooms walls dw_rooms.1 dw_rooms.2 scale_m_per_px
  Except.ok { json := final_json, annotated_image := overlay_image }

/-- `detect_rooms_and_overlay` (`backend/services/room_detection.py`): the
separate room-detection service.  Its very first step after filling the
default params is the guard `if scale_m_per_px <= 0: raise ValueError(...)`;
everything after the guard is OpenCV-bound and modelled by the
`run_detection` oracle. -/
def detect_rooms_and_overlay {α : Type} (run_detection : Image → ℚ → α)
    (image_bgr : Image) (scale_m_per_px : ℚ) : Except String α :=
  if scale_m_per_px ≤ 0 then Except.error "scale_m_per_px must be > 0"
  else Except.ok (run_detection image_bgr scale_m_per_px)

/-- Oracles whose stages all return empty data (witness instrumentation). -/
noncomputable def trivialOracles : PipelineOracles :=
  { preprocess_blueprint := fun _ => { grayscale := [], binary := [], cleaned := [] }
    wall_components := fun _ => []
    detect_walls_stage := fun _ _ => []
    mask_shape := fun _ => (0, 0)
    findContours := fun _ => []
    detect_doors_windows := fun _ => ([], [])
    pointPolygonTest := fun _ _ => 0
    create_annotated_overlay := fun image _ _ _ _ _ => image }

/-- Distance from a point to one wall record (proof device naming the
distance the association loop computes per wall). -/
noncomputable def wall_dist (center : Point) (w : WallRec) : ℝ :=
  point_to_line_distance center w.start w.end_

/-- Concrete wall 3 px above the origin (witness instrumentation). -/
def wallW0 : WallRec :=
  { start := (0, 3), end_ := (10, 3), thickness_px := 1, length := 10, angle := 0 }

def doorD0 : ElementRec :=
  { type := none, center := (0, 0), width := 2, height := 1,
    orientation := "horizontal", confidence := 9 / 10,
    nearest_wall_id := none, connects_rooms := none, room_id := none }

/-- Two collinear horizontal segments with a 1 px gap (the concrete merge
example of the specification). -/
def segA : Line :=
  { start := (0, 0), end_ := (5, 0), angle := 0, length := 5, thickness_px := none }

def segB : Line :=
  { start := (6, 0), end_ := (10, 0), angle := 0, length := 4, thickness_px := none }

/-- Two parallel horizontal segments 1 px apart whose start-start and
end-end endpoint pairs are close but whose cross pairs are far
(counterexample instrumentation). -/
def lineL1 : Line :=
  { start := (0, 0), end_ := (100, 0), angle := 0, length := 100, thickness_px := none }

def lineL2 : Line :=
  { start := (0, 1), end_ := (100, 1), angle := 0, length := 100, thickness_px := none }

theorem sqDist_nonneg (p q : Point) : 0 ≤ sqDist p q := by
  unfold sqDist; positivity

theorem sqDist_comm (p q : Point) : sqDist p q = sqDist q p := by
  unfold sqDist; ring

theorem sqDist_eq_zero_iff (p q : Point) : sqDist p q = 0 ↔ p = q := by
  unfold sqDist
  constructor
  · intro h
    have h1 : (p.1 - q.1) ^ 2 = 0 ∧ (p.2 - q.2) ^ 2 = 0 := by
      constructor <;> nlinarith [sq_nonneg (p.1 - q.1), sq_nonneg (p.2 - q.2)]
    have e1 : p.1 = q.1 := by nlinarith [h1.1]
    have e2 : p.2 = q.2 := by nlinarith [h1.2]
    exact Prod.ext e1 e2
  · intro h; subst h; ring

theorem distR_nonneg (p q : Point) : 0 ≤ distR p q :=
  Real.sqrt_nonneg _

theorem distR_comm (p q : Point) : distR p q = distR q p := by
  unfold distR; rw [sqDist_comm]

theorem distR_eq_zero_iff (p q : Point) : distR p q = 0 ↔ p = q := by
  unfold distR
  rw [Real.sqrt_eq_zero (by exact_mod_cast sqDist_nonneg p q)]
  rw [show ((sqDist p q : ℚ) : ℝ) = 0 ↔ sqDist p q = 0 by exact_mod_cast Iff.rfl]
  exact sqDist_eq_zero_iff p q

/-- Evaluate a distance that is a perfect square. -/
theorem distR_eq_of_sq (p q : Point) (r : ℚ) (h : r ^ 2 = sqDist p q)
    (hr : 0 ≤ r) : distR p q = (r : ℚ) := by
  unfold distR
  rw [← h]
  push_cast
  exact Real.sqrt_sq (by exact_mod_cast hr)

/-- Compare a distance against a rational bound via squares. -/
theorem distR_lt_iff (p q : Point) (c : ℚ) (hc : 0 < c) :
    distR p q < (c : ℝ) ↔ sqDist p q < c ^ 2 := by
  unfold distR
  rw [Real.sqrt_lt' (by exact_mod_cast hc)]
  exact_mod_cast Iff.rfl

/-- Compare two distances via squares. -/
theorem distR_lt_distR_iff (p q u v : Point) :
    distR p q < distR u v ↔ sqDist p q < sqDist u v := by
  unfold distR
  rw [Real.sqrt_lt_sqrt_iff (by exact_mod_cast sqDist_nonneg p q)]
  exact_mod_cast Iff.rfl

/-! ### Helper lemmas: rounding and truncation -/

theorem pyTrunc_natCast (n : ℕ) : pyTrunc ((n : ℚ)) = (n : ℤ) := by
  unfold pyTrunc
  rw [if_pos (by positivity)]
  exact_mod_cast Int.floor_natCast n

theorem round_rat_eval (x : ℚ) (z : ℤ) (h1 : (z : ℚ) ≤ x + 1 / 2)
    (h2 : x + 1 / 2 < z + 1) : round x = z := by
  rw [round_eq]
  exact Int.floor_eq_iff.mpr ⟨h1, h2⟩

theorem floor_rat_eval (x : ℚ) (z : ℤ) (h1 : (z : ℚ) ≤ x) (h2 : x < z + 1) :
    ⌊x⌋ = z :=
  Int.floor_eq_iff.mpr ⟨h1, h2⟩

theorem pyTrunc_eval_nonneg (x : ℚ) (z : ℤ) (h0 : 0 ≤ x) (h1 : (z : ℚ) ≤ x)
    (h2 : x < z + 1) : pyTrunc x = z := by
  unfold pyTrunc
  rw [if_pos h0]
  exact floor_rat_eval x z h1 h2

/-! ### Claim C1: the area conversion formula -/

/-- C1 (code_bug evidence): the source computes
`area_m2 = round(area_px * s, 3) * s`, i.e. it rounds the linearly
converted area to 3 decimals and only then multiplies by the scale again.
At `area_px = 12341`, `s = 1/10000` this produces `1234/10^7`, while the
claimed exact value `area_px * s * s` is `12341/10^8` — the double-rounding
defect that §9 of the specification identifies in the source. -/
theorem area_m2_double_rounding_bug :
    (apply_scale_conversion
        [{ id := 0, polygon := [], area_px := 12341, num_corners := 4 }]
        [] [] [] (1 / 10000)).rooms =
      [{ id := 0, polygon := [], area_m2 := 1234 / 10 ^ 7, num_corners := 4 }] ∧
    (1234 / 10 ^ 7 : ℚ) ≠ (12341 : ℚ) * (1 / 10000) * (1 / 10000) := by
  constructor
  · have harg : ((12341 : ℤ) : ℚ) * (1 / 10000) * 10 ^ 3 = 12341 / 10 := by norm_num
    have hr : round ((12341 : ℚ) / 10) = 1234 :=
      round_rat_eval _ 1234 (by norm_num) (by norm_num)
    simp only [apply_scale_conversion, List.map_cons, List.map_nil, room_px_to_m,
      px_to_m, pyRound, point_px_to_m]
    rw [harg, hr]
    norm_num
  · norm_num

/-! ### Claim C2: scale validation at the pipeline boundary -/

/-- C2 counterexample: with a non-positive scale (`-1/100`) the hybrid
pipeline entry point does NOT fail before any stage — it runs every stage
and returns `Except.ok`, with the non-positive scale embedded in the
output metadata (showing that scale conversion itself executed with it). -/
theorem hybrid_accepts_nonpositive_scale :
    hybrid_floor_plan_analysis trivialOracles [] (-1 / 100) =
      Except.ok
        { json :=
            { metadata :=
                { scale_m_per_px := -1 / 100, total_rooms := 0, total_walls := 0,
                  total_doors := 0, total_windows := 0 }
              rooms := [], walls := [], doors := [], windows := [] }
          annotated_image := [] } := by
  rfl

/-- C2 (amended): `hybrid_floor_plan_analysis` performs no validation of
`meters_per_pixel` at all — for every input and every scale it runs all
stages and returns `Except.ok`.  The fail-fast rejection of non-positive
scale exists in the separate service entry point
`detect_rooms_and_overlay`, which raises `ValueError` before any
processing. -/
theorem hybrid_pipeline_scale_handling :
    (∀ (o : PipelineOracles) (image_bgr : Image) (scale_m_per_px : ℚ),
        ∃ r, hybrid_floor_plan_analysis o image_bgr scale_m_per_px = Except.ok r) ∧
    (∀ (α : Type) (run_detection : Image → ℚ → α) (image_bgr : Image)
        (scale_m_per_px : ℚ), scale_m_per_px ≤ 0 →
        detect_rooms_and_overlay run_detection image_bgr scale_m_per_px =
          Except.error "scale_m_per_px must be > 0") := by
  constructor
  · intro o image_bgr scale_m_per_px
    exact ⟨_, rfl⟩
  · intro α run_detection image_bgr scale_m_per_px h
    unfold detect_rooms_and_overlay
    rw [if_pos h]

/-- C2 witness: the amended theorem applied at a concrete non-positive
scale. -/
theorem hybrid_pipeline_scale_handling_witness :
    detect_rooms_and_overlay (fun (_ : Image) (_ : ℚ) => (0 : ℕ)) [] (-1) =
      Except.error "scale_m_per_px must be > 0" :=
  hybrid_pipeline_scale_handling.2 ℕ (fun _ _ => 0) [] (-1) (by norm_num)

/-! ### Claim C8: room filters -/

theorem detect_rooms_go_mem (min_room_area : ℚ) :
    ∀ (cnts : List Contour) (rid : ℕ) (r : RoomRec),
      r ∈ detect_rooms_go min_room_area cnts rid →
        3 ≤ r.num_corners ∧
        ∃ c ∈ cnts, min_room_area ≤ c.area ∧ r.area_px = pyTrunc c.area ∧
          r.num_corners = (c.approxPolyDP (1 / 100 * c.arcLength)).length := by
  intro cnts
  induction cnts with
  | nil =>
    intro rid r h
    simp [detect_rooms_go] at h
  | cons c rest ih =>
    intro rid r h
    rw [detect_rooms_go] at h
    by_cases h1 : c.area < min_room_area
    · rw [if_pos h1] at h
      obtain ⟨h3, c2, hc2, hrest⟩ := ih rid r h
      exact ⟨h3, c2, List.mem_cons_of_mem _ hc2, hrest⟩
    · rw [if_neg h1] at h
      by_cases h2 : (c.approxPolyDP (1 / 100 * c.arcLength)).length < 3
      · rw [if_pos h2] at h
        obtain ⟨h3, c2, hc2, hrest⟩ := ih rid r h
        exact ⟨h3, c2, List.mem_cons_of_mem _ hc2, hrest⟩
      · rw [if_neg h2] at h
        rcases List.mem_cons.mp h with h3 | h3
        · subst h3
          exact ⟨le_of_not_lt h2, c, List.mem_cons_self _ _, le_of_not_lt h1, rfl, rfl⟩
        · obtain ⟨h4, c2, hc2, hrest⟩ := ih (rid + 1) r h3
          exact ⟨h4, c2, List.mem_cons_of_mem _ hc2, hrest⟩

theorem detect_rooms_go_length (min_room_area : ℚ) :
    ∀ (cnts : List Contour) (rid : ℕ),
      (detect_rooms_go min_room_area cnts rid).length =
        cnts.countP (room_contour_pass min_room_area) := by
  intro cnts
  induction cnts with
  | nil => intro rid; simp [detect_rooms_go]
  | cons c rest ih =>
    intro rid
    rw [detect_rooms_go, List.countP_cons]
    by_cases h1 : c.area < min_room_area
    · have hp : room_contour_pass min_room_area c = false := by
        unfold room_contour_pass
        simp [not_le.mpr h1]
      rw [if_pos h1, ih rid, hp]
      simp
    · rw [if_neg h1]
      by_cases h2 : (c.approxPolyDP (1 / 100 * c.arcLength)).length < 3
      · have hp : room_contour_pass min_room_area c = false := by
          unfold room_contour_pass
          rw [decide_eq_false (not_le.mpr h2)]
          exact Bool.and_false _
        rw [if_pos h2, ih rid, hp]
        simp
      · have hp : room_contour_pass min_room_area c = true := by
          unfold room_contour_pass
          rw [decide_eq_true (le_of_not_lt h1), decide_eq_true (le_of_not_lt h2)]
          rfl
        rw [if_neg h2, List.length_cons, ih (rid + 1), hp]
        simp

/-- C8: every room returned by `detect_rooms` has at least 3 corners and
comes from a contour whose pixel area is at least
`min_area_ratio × total_image_area`; a contour failing either requirement
is silently dropped (the output length counts exactly the contours passing
both filters), and the function is total — no error is possible. -/
theorem detect_rooms_corner_and_area_filter (shape : ℕ × ℕ)
    (contours : List Contour) ( min_area_ratio : ℚ) :
    (∀ r ∈ detect_rooms shape contours min_area_ratio,
        3 ≤ r.num_corners ∧
        ∃ c ∈ contours,
          ((shape.1 : ℚ) * (shape.2 : ℚ)) * min_area_ratio ≤ c.area ∧
          r.area_px = pyTrunc c.area ∧
          r.num_corners = (c.approxPolyDP (1 / 100 * c.arcLength)).length) ∧
    (detect_rooms shape contours min_area_ratio).length =
      contours.countP
        (room_contour_pass (((shape.1 : ℚ) * (shape.2 : ℚ)) * min_area_ratio)) := by
  constructor
  · intro r hr
    exact detect_rooms_go_mem _ contours 0 r hr
  · exact detect_rooms_go_length _ contours 0

/-- C8 witness: a contour list with one passing and one failing contour,
run through the claim theorem. -/
theorem detect_rooms_corner_and_area_filter_witness :
    3 ≤ ({ id := 0, polygon := [(0, 0), (10, 0), (10, 10), (0, 10)],
           area_px := 100, num_corners := 4 } : RoomRec).num_corners ∧
    ∃ c ∈ [({ area := 100, arcLength := 40,
              approxPolyDP := fun _ => [(0, 0), (10, 0), (10, 10), (0, 10)] } : Contour)],
      ((10 : ℚ) * (10 : ℚ)) * (1 / 1000) ≤ c.area ∧
      ({ id := 0, polygon := [(0, 0), (10, 0), (10, 10), (0, 10)],
         area_px := 100, num_corners := 4 } : RoomRec).area_px = pyTrunc c.area ∧
      ({ id := 0, polygon := [(0, 0), (10, 0), (10, 10), (0, 10)],
         area_px := 100, num_corners := 4 } : RoomRec).num_corners =
        (c.approxPolyDP (1 / 100 * c.arcLength)).length :=
  (detect_rooms_corner_and_area_filter (10, 10)
      [{ area := 100, arcLength := 40,
         approxPolyDP := fun _ => [(0, 0), (10, 0), (10, 10), (0, 10)] }]
      (1 / 1000)).1
    { id := 0, polygon := [(0, 0), (10, 0), (10, 10), (0, 10)],
      area_px := 100, num_corners := 4 }
    (by
      rw [show detect_rooms (10, 10)
          [{ area := 100, arcLength := 40,
             approxPolyDP := fun _ => [(0, 0), (10, 0), (10, 10), (0, 10)] }]
          (1 / 1000) =
          [{ id := 0, polygon := [(0, 0), (10, 0), (10, 10), (0, 10)],
             area_px := 100, num_corners := 4 }] from by
        norm_num [detect_rooms, detect_rooms_go, pyTrunc, Int.floor_intCast]]
      exact List.mem_singleton.mpr rfl)

/-! ### Claim C9: wall thickness estimation -/

theorem npMedian_mem_of_odd (l : List ℚ) (h : l.length % 2 = 1) :
    npMedian l ∈ l := by
  unfold npMedian
  rw [if_pos h]
  have hperm := List.mergeSort_perm l (fun a b => decide (a ≤ b))
  have hlen : (l.mergeSort (fun a b => decide (a ≤ b))).length = l.length :=
    hperm.length_eq
  have hlt : l.length / 2 < (l.mergeSort (fun a b => decide (a ≤ b))).length := by
    rw [hlen]
    omega
  rw [List.getD_eq_getElem _ _ hlt]
  exact hperm.mem_iff.mp (List.getElem_mem hlt)

/-- C9: `estimate_wall_thickness` returns the fixed default 12 exactly
when no bounding-box minor dimension survives the strict 5–50 px filter,
otherwise the truncated median of the surviving candidates (each of which
lies strictly between 5 and 50); for an odd number of candidates the
result is itself one of the candidates.  The function is total, so no
input can make it throw. -/
theorem estimate_wall_thickness_median_or_default
    (wall_components : List (ℕ × ℕ × ℕ × ℕ)) :
    (wall_width_candidates wall_components = [] →
      estimate_wall_thickness wall_components = 12) ∧
    (∀ t ∈ wall_width_candidates wall_components, 5 < t ∧ t < 50) ∧
    (wall_width_candidates wall_components ≠ [] →
      estimate_wall_thickness wall_components =
        pyTrunc (npMedian ((wall_width_candidates wall_components).map
          (fun t : ℕ => (t : ℚ)))) ∧
      ((wall_width_candidates wall_components).length % 2 = 1 →
        ∃ t ∈ wall_width_candidates wall_components,
          estimate_wall_thickness wall_components = (t : ℤ))) := by
  refine ⟨?_, ?_, ?_⟩
  · intro h
    unfold estimate_wall_thickness
    rw [if_pos (List.isEmpty_iff.mpr h)]
  · intro t ht
    have := (List.mem_filter.mp ht).2
    exact of_decide_eq_true this
  · intro h
    have hne : ¬ (wall_width_candidates wall_components).isEmpty := by
      intro hcon
      exact h (List.isEmpty_iff.mp hcon)
    constructor
    · unfold estimate_wall_thickness
      rw [if_neg hne]
    · intro hodd
      have hodd2 : ((wall_width_candidates wall_components).map
          (fun t : ℕ => (t : ℚ))).length % 2 = 1 := by
        rw [List.length_map]
        exact hodd
      have hmem := npMedian_mem_of_odd _ hodd2
      obtain ⟨t, ht, hcast⟩ := List.mem_map.mp hmem
      refine ⟨t, ht, ?_⟩
      unfold estimate_wall_thickness
      rw [if_neg hne, ← hcast, pyTrunc_natCast]

/-- C9 witness: the default branch on an input with no candidates, the
range bound at a concrete candidate, and the median branch on a concrete
three-candidate input. -/
theorem estimate_wall_thickness_median_or_default_witness :
    estimate_wall_thickness [] = 12 ∧
    (5 < 10 ∧ 10 < 50) ∧
    estimate_wall_thickness [(0, 0, 10, 30), (0, 0, 7, 100), (0, 0, 8, 9)] =
      pyTrunc (npMedian ((wall_width_candidates
        [(0, 0, 10, 30), (0, 0, 7, 100), (0, 0, 8, 9)]).map (fun t : ℕ => (t : ℚ)))) :=
  ⟨(estimate_wall_thickness_median_or_default []).1 (by decide),
   (estimate_wall_thickness_median_or_default [(0, 0, 10, 30)]).2.1 10 (by decide),
   ((estimate_wall_thickness_median_or_default
      [(0, 0, 10, 30), (0, 0, 7, 100), (0, 0, 8, 9)]).2.2 (by decide)).1⟩

/-! ### Claims C5 and C10: point-to-segment distance -/

theorem point_to_line_distance_eq_sqrt (p a b : Point) :
    point_to_line_distance p a b = Real.sqrt ((ptldSq p a b : ℚ) : ℝ) := by
  unfold point_to_line_distance ptldSq
  have harg : (((b.1 : ℚ) : ℝ) - ((a.1 : ℚ) : ℝ)) ^ 2 +
      (((b.2 : ℚ) : ℝ) - ((a.2 : ℚ) : ℝ)) ^ 2 = ((sqDist a b : ℚ) : ℝ) := by
    unfold sqDist; push_cast; ring
  have hnn : (0 : ℝ) ≤ ((sqDist a b : ℚ) : ℝ) := by exact_mod_cast sqDist_nonneg a b
  by_cases hz : sqDist a b = 0
  · have hlen : Real.sqrt ((((b.1 : ℚ) : ℝ) - ((a.1 : ℚ) : ℝ)) ^ 2 +
        (((b.2 : ℚ) : ℝ) - ((a.2 : ℚ) : ℝ)) ^ 2) = 0 := by
      rw [harg, hz]
      simp
    simp only [hlen, if_true, eq_self_iff_true]
    rw [if_pos hz]
    congr 1
    unfold sqDist
    push_cast
    ring
  · have hpos : (0 : ℝ) < ((sqDist a b : ℚ) : ℝ) := by
      rcases lt_or_eq_of_le hnn with h | h
      · exact h
      · exact absurd (by exact_mod_cast h.symm) hz
    have hlen : Real.sqrt ((((b.1 : ℚ) : ℝ) - ((a.1 : ℚ) : ℝ)) ^ 2 +
        (((b.2 : ℚ) : ℝ) - ((a.2 : ℚ) : ℝ)) ^ 2) ≠ 0 := by
      rw [harg]
      intro hcon
      rw [Real.sqrt_eq_zero hnn] at hcon
      exact hz (by exact_mod_cast hcon)
    simp only [if_neg hlen, if_neg hz]
    have hsq : Real.sqrt ((((b.1 : ℚ) : ℝ) - ((a.1 : ℚ) : ℝ)) ^ 2 +
        (((b.2 : ℚ) : ℝ) - ((a.2 : ℚ) : ℝ)) ^ 2) ^ 2 = ((sqDist a b : ℚ) : ℝ) := by
      rw [harg]
      exact Real.sq_sqrt hnn
    rw [hsq]
    congr 1
    unfold sqDist
    push_cast
    ring

theorem ptld_five : point_to_line_distance (5, 5) (0, 0) (10, 0) = 5 := by
  rw [point_to_line_distance_eq_sqrt]
  have h : ptldSq (5, 5) (0, 0) (10, 0) = 25 := by
    norm_num [ptldSq, sqDist, min_def, max_def]
  rw [h, show ((25 : ℚ) : ℝ) = (5 : ℝ) ^ 2 by norm_num, Real.sqrt_sq (by norm_num)]

theorem ptld_three : point_to_line_distance (-3, 0) (0, 0) (10, 0) = 3 := by
  rw [point_to_line_distance_eq_sqrt]
  have h : ptldSq (-3, 0) (0, 0) (10, 0) = 9 := by
    norm_num [ptldSq, sqDist, min_def, max_def]
  rw [h, show ((9 : ℚ) : ℝ) = (3 : ℝ) ^ 2 by norm_num, Real.sqrt_sq (by norm_num)]

theorem ptld_min1 (t : ℚ) (h0 : 0 ≤ t) (h1 : t ≤ 1) :
    point_to_line_distance (5, 5) (0, 0) (10, 0) ≤ distR (5, 5) (10 * t, 0) := by
  rw [ptld_five]
  unfold distR
  rw [Real.le_sqrt (by norm_num) (by exact_mod_cast sqDist_nonneg _ _)]
  have : ((25 : ℚ) : ℝ) ≤ ((sqDist (5, 5) (10 * t, 0) : ℚ) : ℝ) := by
    have : (25 : ℚ) ≤ sqDist (5, 5) (10 * t, 0) := by
      show (25 : ℚ) ≤ ((5 : ℚ) - 10 * t) ^ 2 + ((5 : ℚ) - 0) ^ 2
      nlinarith [sq_nonneg ((5 : ℚ) - 10 * t)]
    exact_mod_cast this
  calc (5 : ℝ) ^ 2 = ((25 : ℚ) : ℝ) := by norm_num
  _ ≤ _ := this

theorem ptld_min2 (t : ℚ) (h0 : 0 ≤ t) (h1 : t ≤ 1) :
    point_to_line_distance (-3, 0) (0, 0) (10, 0) ≤ distR (-3, 0) (10 * t, 0) := by
  rw [ptld_three]
  unfold distR
  rw [Real.le_sqrt (by norm_num) (by exact_mod_cast sqDist_nonneg _ _)]
  have : ((9 : ℚ) : ℝ) ≤ ((sqDist (-3, 0) (10 * t, 0) : ℚ) : ℝ) := by
    have : (9 : ℚ) ≤ sqDist (-3, 0) (10 * t, 0) := by
      show (9 : ℚ) ≤ ((-3 : ℚ) - 10 * t) ^ 2 + ((0 : ℚ) - 0) ^ 2
      nlinarith
    exact_mod_cast this
  calc (3 : ℝ) ^ 2 = ((9 : ℚ) : ℝ) := by norm_num
  _ ≤ _ := this

/-- C5: `point_to_line_distance` computes the clamped-projection distance
to the finite segment: for the horizontal segment `(0,0)-(10,0)` the
distance from `(5,5)` is exactly 5 and the distance from `(-3,0)` is
exactly 3, and in both cases the returned value is a lower bound for the
distance to every point `(10t, 0)`, `t ∈ [0,1]`, of the segment (so it is
the distance to the nearest segment point, not to the infinite line). -/
theorem point_to_line_distance_clamped_projection :
    point_to_line_distance (5, 5) (0, 0) (10, 0) = 5 ∧
    point_to_line_distance (-3, 0) (0, 0) (10, 0) = 3 ∧
    (∀ t : ℚ, 0 ≤ t → t ≤ 1 →
      point_to_line_distance (5, 5) (0, 0) (10, 0) ≤ distR (5, 5) (10 * t, 0)) ∧
    (∀ t : ℚ, 0 ≤ t → t ≤ 1 →
      point_to_line_distance (-3, 0) (0, 0) (10, 0) ≤ distR (-3, 0) (10 * t, 0)) :=
  ⟨ptld_five, ptld_three, ptld_min1, ptld_min2⟩

/-- C5 witness: the lower-bound conjuncts applied at the concrete segment
parameter `t = 1/2` (the segment midpoint `(5, 0)`). -/
theorem point_to_line_distance_clamped_projection_witness :
    ((0 : ℚ) ≤ 1 / 2 ∧ (1 / 2 : ℚ) ≤ 1) ∧
    point_to_line_distance (5, 5) (0, 0) (10, 0) ≤ distR (5, 5) (10 * (1 / 2), 0) ∧
    point_to_line_distance (-3, 0) (0, 0) (10, 0) ≤ distR (-3, 0) (10 * (1 / 2), 0) :=
  ⟨⟨by norm_num, by norm_num⟩,
   point_to_line_distance_clamped_projection.2.2.1 (1 / 2) (by norm_num) (by norm_num),
   point_to_line_distance_clamped_projection.2.2.2 (1 / 2) (by norm_num) (by norm_num)⟩

/-- C10: `point_to_line_distance` is total on degenerate input: when the
two segment endpoints coincide, the guard `line_len == 0` fires and the
function returns the plain euclidean distance to that endpoint instead of
dividing by zero, and for every input the result is non-negative (and a
real number, hence finite in this model). -/
theorem point_to_line_distance_total (p a b : Point) :
    (a = b → point_to_line_distance p a b = distR p a) ∧
    0 ≤ point_to_line_distance p a b := by
  constructor
  · intro h
    subst h
    rw [point_to_line_distance_eq_sqrt]
    unfold distR
    have hz : sqDist a a = 0 := by unfold sqDist; ring
    have he : ptldSq p a a = sqDist p a := by
      simp [ptldSq, hz]
    rw [he]
  · rw [point_to_line_distance_eq_sqrt]
    exact Real.sqrt_nonneg _

/-- C10 witness: the degenerate-segment branch at the coincident endpoint
`(3,4)`, plus non-negativity there. -/
theorem point_to_line_distance_total_witness :
    point_to_line_distance (0, 0) (3, 4) (3, 4) = distR (0, 0) (3, 4) ∧
    0 ≤ point_to_line_distance (0, 0) (3, 4) (3, 4) :=
  ⟨(point_to_line_distance_total (0, 0) (3, 4) (3, 4)).1 rfl,
   (point_to_line_distance_total (0, 0) (3, 4) (3, 4)).2⟩

/-! ### Claim C6: nearest-wall association -/

theorem argminStrict_nil : argminStrict [] = none := rfl

theorem argminStrict_ne_none (d : ℝ) (rest : List ℝ) :
    argminStrict (d :: rest) ≠ none := by
  cases h : argminStrict rest with
  | none => simp [argminStrict, h]
  | some jm =>
    simp only [argminStrict, h]
    split <;> simp

theorem argminStrict_spec :
    ∀ (l : List ℝ) (j : ℕ) (m : ℝ), argminStrict l = some (j, m) →
      j < l.length ∧ l.getD j 0 = m ∧ (∀ i, i < l.length → m ≤ l.getD i 0) ∧
        (∀ i, i < j → m < l.getD i 0) := by
  intro l
  induction l with
  | nil => intro j m h; simp [argminStrict] at h
  | cons d rest ih =>
    intro j m h
    cases hr : argminStrict rest with
    | none =>
      simp only [argminStrict, hr] at h
      have hrest : rest = [] := by
        cases rest with
        | nil => rfl
        | cons x xs => exact absurd hr (argminStrict_ne_none x xs)
      simp only [Option.some.injEq, Prod.mk.injEq] at h
      obtain ⟨hj, hm⟩ := h
      subst hj hm hrest
      refine ⟨by simp, rfl, ?_, ?_⟩
      · intro i hi
        have hi0 : i = 0 := by simpa using hi
        subst hi0
        simp
      · intro i hi
        omega
    | some jm =>
      obtain ⟨j0, m0⟩ := jm
      simp only [argminStrict, hr] at h
      obtain ⟨hj0, hg0, hle0, hlt0⟩ := ih j0 m0 hr
      by_cases hlt : m0 < d
      · rw [if_pos hlt] at h
        simp only [Option.some.injEq, Prod.mk.injEq] at h
        obtain ⟨hj, hm⟩ := h
        subst hj hm
        refine ⟨by simpa using hj0, by simpa using hg0, ?_, ?_⟩
        · intro i hi
          cases i with
          | zero => simpa using le_of_lt hlt
          | succ i2 =>
            rw [List.getD_cons_succ]
            exact hle0 i2 (by simpa using hi)
        · intro i hi
          cases i with
          | zero => simpa using hlt
          | succ i2 =>
            rw [List.getD_cons_succ]
            exact hlt0 i2 (by omega)
      · rw [if_neg hlt] at h
        simp only [Option.some.injEq, Prod.mk.injEq] at h
        obtain ⟨hj, hm⟩ := h
        subst hj hm
        refine ⟨by simp, rfl, ?_, ?_⟩
        · intro i hi
          cases i with
          | zero => simp
          | succ i2 =>
            rw [List.getD_cons_succ]
            exact le_trans (not_lt.mp hlt) (hle0 i2 (by simpa using hi))
        · intro i hi
          omega

theorem find_nearest_wall_go_eq (c : Point) :
    ∀ (ws : List WallRec) (i : ℕ) (md : Option ℝ) (nid : ℤ),
      find_nearest_wall_go c ws i md nid =
        (match md, argminStrict (ws.map (wall_dist c)) with
         | none, none => (none, nid)
         | none, some jm => (some jm.2, ((i + jm.1 : ℕ) : ℤ))
         | some m0, none => (some m0, nid)
         | some m0, some jm =>
           if jm.2 < m0 then (some jm.2, ((i + jm.1 : ℕ) : ℤ)) else (some m0, nid)) := by
  intro ws
  induction ws with
  | nil =>
    intro i md nid
    cases md <;> simp [find_nearest_wall_go, argminStrict]
  | cons w rest ih =>
    intro i md nid
    cases md with
    | none =>
      have hstep : find_nearest_wall_go c (w :: rest) i none nid =
          find_nearest_wall_go c rest (i + 1) (some (wall_dist c w)) (i : ℤ) := rfl
      rw [hstep, ih, List.map_cons]
      cases hr : argminStrict (rest.map (wall_dist c)) with
      | none =>
        simp only [argminStrict, hr]
        try dsimp only
        norm_num
      | some jm =>
        obtain ⟨j0, m0⟩ := jm
        simp only [argminStrict, hr]
        try dsimp only
        by_cases hlt : m0 < wall_dist c w
        · rw [if_pos hlt, if_pos hlt]
          congr 1
          push_cast
          ring
        · rw [if_neg hlt, if_neg hlt]
          norm_num
    | some m0 =>
      by_cases hlt : wall_dist c w < m0
      · have hstep : find_nearest_wall_go c (w :: rest) i (some m0) nid =
            find_nearest_wall_go c rest (i + 1) (some (wall_dist c w)) (i : ℤ) := by
          simp only [find_nearest_wall_go]
          rw [if_pos (show point_to_line_distance c w.start w.end_ < m0 from hlt)]
          rfl
        rw [hstep, ih, List.map_cons]
        cases hr : argminStrict (rest.map (wall_dist c)) with
        | none =>
          simp only [argminStrict, hr]
          try dsimp only
          rw [if_pos hlt]
          norm_num
        | some jm =>
          obtain ⟨j0, m0r⟩ := jm
          simp only [argminStrict, hr]
          try dsimp only
          by_cases hlt2 : m0r < wall_dist c w
          · rw [if_pos hlt2, if_pos hlt2]
            try dsimp only
            rw [if_pos (lt_trans hlt2 hlt)]
            congr 1
            push_cast
            ring
          · rw [if_neg hlt2, if_neg hlt2]
            try dsimp only
            rw [if_pos hlt]
            norm_num
      · have hstep : find_nearest_wall_go c (w :: rest) i (some m0) nid =
            find_nearest_wall_go c rest (i + 1) (some m0) nid := by
          simp only [find_nearest_wall_go]
          rw [if_neg (show ¬ point_to_line_distance c w.start w.end_ < m0 from hlt)]
        rw [hstep, ih, List.map_cons]
        cases hr : argminStrict (rest.map (wall_dist c)) with
        | none =>
          simp only [argminStrict, hr]
          try dsimp only
          rw [if_neg hlt]
        | some jm =>
          obtain ⟨j0, m0r⟩ := jm
          simp only [argminStrict, hr]
          try dsimp only
          by_cases hlt2 : m0r < wall_dist c w
          · rw [if_pos hlt2]
            try dsimp only
            by_cases hlt3 : m0r < m0
            · rw [if_pos hlt3, if_pos hlt3]
              congr 1
              push_cast
              ring
            · rw [if_neg hlt3, if_neg hlt3]
          · rw [if_neg hlt2]
            try dsimp only
            have hge : m0 ≤ m0r := le_trans (not_lt.mp hlt) (not_lt.mp hlt2)
            rw [if_neg hlt, if_neg (not_lt.mpr hge)]

theorem getD_map_wall_dist (c : Point) (walls : List WallRec) (i : ℕ)
    (h : i < walls.length) :
    (walls.map (wall_dist c)).getD i 0 = wall_dist c (walls.getD i dummyWall) := by
  rw [List.getD_eq_getElem _ _ (by simpa using h), List.getD_eq_getElem _ _ h,
    List.getElem_map]

theorem find_nearest_wall_eq (c : Point) (walls : List WallRec) (max_distance : ℝ) :
    find_nearest_wall c walls max_distance =
      (match argminStrict (walls.map (wall_dist c)) with
       | none => -1
       | some jm => if jm.2 < max_distance then (jm.1 : ℤ) else -1) := by
  unfold find_nearest_wall
  rw [find_nearest_wall_go_eq]
  cases hr : argminStrict (walls.map (wall_dist c)) with
  | none => rfl
  | some jm =>
    try dsimp only
    norm_num

theorem find_nearest_wall_eq_neg_one_iff (c : Point) (walls : List WallRec)
    (max_distance : ℝ) :
    find_nearest_wall c walls max_distance = -1 ↔
      ∀ i, i < walls.length → max_distance ≤ wall_dist c (walls.getD i dummyWall) := by
  rw [find_nearest_wall_eq]
  cases hr : argminStrict (walls.map (wall_dist c)) with
  | none =>
    have hempty : walls = [] := by
      cases hw : walls with
      | nil => rfl
      | cons x xs =>
        rw [hw, List.map_cons] at hr
        exact absurd hr (argminStrict_ne_none _ _)
    subst hempty
    simp
  | some jm =>
    obtain ⟨j, m⟩ := jm
    obtain ⟨hj, hg, hle, _⟩ := argminStrict_spec _ _ _ hr
    rw [List.length_map] at hj
    try dsimp only
    constructor
    · intro h1 i hi
      by_cases hlt : m < max_distance
      · rw [if_pos hlt] at h1
        exact absurd h1 (by omega)
      · calc max_distance ≤ m := not_lt.mp hlt
        _ ≤ (walls.map (wall_dist c)).getD i 0 := hle i (by simpa using hi)
        _ = wall_dist c (walls.getD i dummyWall) := getD_map_wall_dist c walls i hi
    · intro h2
      have hm : wall_dist c (walls.getD j dummyWall) = m := by
        rw [← getD_map_wall_dist c walls j hj]
        exact hg
      have : max_distance ≤ m := by
        rw [← hm]
        exact h2 j hj
      rw [if_neg (not_lt.mpr this)]

theorem find_nearest_wall_cases (c : Point) (walls : List WallRec)
    (max_distance : ℝ) :
    find_nearest_wall c walls max_distance = -1 ∨
    ∃ i : ℕ, i < walls.length ∧ find_nearest_wall c walls max_distance = (i : ℤ) ∧
      wall_dist c (walls.getD i dummyWall) < max_distance ∧
      (∀ j, j < walls.length →
        wall_dist c (walls.getD i dummyWall) ≤ wall_dist c (walls.getD j dummyWall)) ∧
      (∀ j, j < i →
        wall_dist c (walls.getD i dummyWall) < wall_dist c (walls.getD j dummyWall)) := by
  rw [find_nearest_wall_eq]
  cases hr : argminStrict (walls.map (wall_dist c)) with
  | none => exact Or.inl rfl
  | some jm =>
    obtain ⟨j, m⟩ := jm
    obtain ⟨hj, hg, hle, hlt⟩ := argminStrict_spec _ _ _ hr
    rw [List.length_map] at hj
    have hm : wall_dist c (walls.getD j dummyWall) = m := by
      rw [← getD_map_wall_dist c walls j hj]
      exact hg
    try dsimp only
    by_cases hcut : m < max_distance
    · refine Or.inr ⟨j, hj, by rw [if_pos hcut], by rw [hm]; exact hcut, ?_, ?_⟩
      · intro i hi
        rw [hm, ← getD_map_wall_dist c walls i hi]
        exact hle i (by simpa using hi)
      · intro i hi
        rw [hm, ← getD_map_wall_dist c walls i (lt_trans hi hj)]
        exact hlt i hi
    · exact Or.inl (by rw [if_neg hcut])

theorem doors1_getD (doors windows : List ElementRec) (walls : List WallRec)
    (max_distance : ℝ) (k : ℕ) (hk : k < doors.length) :
    ((associate_elements_with_walls doors windows walls max_distance).1).getD k dummyElem =
      { doors.getD k dummyElem with
        nearest_wall_id :=
          some (find_nearest_wall (doors.getD k dummyElem).center walls max_distance) } := by
  unfold associate_elements_with_walls
  rw [List.getD_eq_getElem _ _ (by simpa using hk), List.getElem_map,
    List.getD_eq_getElem _ _ hk]

theorem out_doors_getD (rooms : List RoomRec) (walls : List WallRec)
    (doors1 windows1 : List ElementRec) (s : ℚ) (k : ℕ) (hk : k < doors1.length) :
    ((apply_scale_conversion rooms walls doors1 windows1 s).doors).getD k dummyElemM =
      door_px_to_m s (doors1.getD k dummyElem) := by
  unfold apply_scale_conversion
  rw [List.getD_eq_getElem _ _ (by simpa using hk), List.getElem_map,
    List.getD_eq_getElem _ _ hk]

/-- C6: after `associate_elements_with_walls` and `apply_scale_conversion`,
a door's `nearest_wall_id` is the index of a wall achieving the minimum
point-to-segment distance from the door's center iff that minimum is below
the distance threshold (source default 15 px), ties broken toward the
earliest wall (the strict `<` update of the running minimum); when no wall
is within the threshold the association stores `-1` and the scaled output
omits the key (`none`), rather than raising an error. -/
theorem nearest_wall_assignment (rooms : List RoomRec) (walls : List WallRec)
    (doors windows : List ElementRec) (max_distance : ℝ) (s : ℚ) (k : ℕ)
    (hk : k < doors.length) :
    ((∃ i, i < walls.length ∧
        wall_dist (doors.getD k dummyElem).center (walls.getD i dummyWall) < max_distance) →
      ∃ i, i < walls.length ∧
        (((associate_elements_with_walls doors windows walls max_distance).1).getD k
            dummyElem).nearest_wall_id = some ((i : ℕ) : ℤ) ∧
        (((apply_scale_conversion rooms walls
              (associate_elements_with_walls doors windows walls max_distance).1
              (associate_elements_with_walls doors windows walls max_distance).2
              s).doors).getD k dummyElemM).nearest_wall_id = some ((i : ℕ) : ℤ) ∧
        wall_dist (doors.getD k dummyElem).center (walls.getD i dummyWall) < max_distance ∧
        (∀ j, j < walls.length →
          wall_dist (doors.getD k dummyElem).center (walls.getD i dummyWall) ≤
            wall_dist (doors.getD k dummyElem).center (walls.getD j dummyWall)) ∧
        (∀ j, j < i →
          wall_dist (doors.getD k dummyElem).center (walls.getD i dummyWall) <
            wall_dist (doors.getD k dummyElem).center (walls.getD j dummyWall))) ∧
    ((∀ i, i < walls.length →
        max_distance ≤ wall_dist (doors.getD k dummyElem).center (walls.getD i dummyWall)) →
      (((associate_elements_with_walls doors windows walls max_distance).1).getD k
          dummyElem).nearest_wall_id = some (-1) ∧
      (((apply_scale_conversion rooms walls
            (associate_elements_with_walls doors windows walls max_distance).1
            (associate_elements_with_walls doors windows walls max_distance).2
            s).doors).getD k dummyElemM).nearest_wall_id = none) := by
  have hk1 : k < ((associate_elements_with_walls doors windows walls max_distance).1).length := by
    unfold associate_elements_with_walls
    simpa using hk
  have hd1 := doors1_getD doors windows walls max_distance k hk
  have hout := out_doors_getD rooms walls
    (associate_elements_with_walls doors windows walls max_distance).1
    (associate_elements_with_walls doors windows walls max_distance).2 s k hk1
  constructor
  · intro hex
    rcases find_nearest_wall_cases (doors.getD k dummyElem).center walls max_distance with
      hneg | ⟨i, hi, hval, hdist, hmin, hearliest⟩
    · exfalso
      obtain ⟨i, hi, hlt⟩ := hex
      exact absurd ((find_nearest_wall_eq_neg_one_iff _ _ _).mp hneg i hi) (not_le.mpr hlt)
    · refine ⟨i, hi, ?_, ?_, hdist, hmin, hearliest⟩
      · rw [hd1, hval]
      · rw [hout, hd1, hval]
        show (door_px_to_m s _).nearest_wall_id = _
        unfold door_px_to_m
        simp only []
        rw [if_pos (by positivity : (0 : ℤ) ≤ (i : ℤ))]
  · intro hall
    have hneg : find_nearest_wall (doors.getD k dummyElem).center walls max_distance = -1 :=
      (find_nearest_wall_eq_neg_one_iff _ _ _).mpr hall
    refine ⟨?_, ?_⟩
    · rw [hd1, hneg]
    · rw [hout, hd1, hneg]
      show (door_px_to_m s _).nearest_wall_id = none
      unfold door_px_to_m
      simp only []
      rw [if_neg (by norm_num : ¬ (0 : ℤ) ≤ (-1 : ℤ))]

theorem wall_dist_w0 : wall_dist (0, 0) wallW0 = 3 := by
  show point_to_line_distance (0, 0) (0, 3) (10, 3) = 3
  rw [point_to_line_distance_eq_sqrt]
  have h : ptldSq (0, 0) (0, 3) (10, 3) = 9 := by
    norm_num [ptldSq, sqDist, min_def, max_def]
  rw [h, show ((9 : ℚ) : ℝ) = (3 : ℝ) ^ 2 by norm_num, Real.sqrt_sq (by norm_num)]

theorem nearest_wall_assignment_witness :
    (((associate_elements_with_walls [doorD0] [] [wallW0] 2).1).getD 0
        dummyElem).nearest_wall_id = some (-1) ∧
    (((apply_scale_conversion [] [wallW0]
          (associate_elements_with_walls [doorD0] [] [wallW0] 2).1
          (associate_elements_with_walls [doorD0] [] [wallW0] 2).2
          1).doors).getD 0 dummyElemM).nearest_wall_id = none :=
  (nearest_wall_assignment [] [wallW0] [doorD0] [] 2 1 0 (by norm_num)).2
    (by
      intro i hi
      have hi0 : i = 0 := by simpa using hi
      subst hi0
      have he : wall_dist ([doorD0].getD 0 dummyElem).center
          ([wallW0].getD 0 dummyWall) = 3 := wall_dist_w0
      rw [he]
      norm_num)

/-! ### Claims C3 and C4: collinear-line merging -/

theorem mem_pairIndices (n a b : ℕ) :
    (a, b) ∈ pairIndices n ↔ a < b ∧ b < n := by
  unfold pairIndices
  simp only [List.mem_flatMap, List.mem_map, List.mem_range, List.mem_range'_1,
    Prod.mk.injEq]
  constructor
  · rintro ⟨i, hi, j, ⟨hj1, hj2⟩, rfl, rfl⟩
    omega
  · rintro ⟨hab, hbn⟩
    exact ⟨a, by omega, b, ⟨by omega, by omega⟩, rfl, rfl⟩

theorem getD_mem_of_lt (pts : List Point) (i : ℕ) (h : i < pts.length) :
    pts.getD i (0, 0) ∈ pts := by
  rw [List.getD_eq_getElem _ _ h]
  exact List.getElem_mem h

theorem max_dist_fold_spec (pts : List Point) :
    ∀ (pairs : List (ℕ × ℕ)) (acc : ℝ × Point × Point),
      (∀ ij ∈ pairs, ij.1 < pts.length ∧ ij.2 < pts.length) →
      (acc = (0, pts.getD 0 (0, 0), pts.getD 1 (0, 0)) ∨
        (acc.2.1 ∈ pts ∧ acc.2.2 ∈ pts ∧ acc.1 = distR acc.2.1 acc.2.2)) →
      0 ≤ acc.1 →
      ((pairs.foldl
          (fun acc2 ij =>
            let dist := distR (pts.getD ij.1 (0, 0)) (pts.getD ij.2 (0, 0))
            if acc2.1 < dist then
              (dist, pts.getD ij.1 (0, 0), pts.getD ij.2 (0, 0))
            else acc2) acc) = (0, pts.getD 0 (0, 0), pts.getD 1 (0, 0)) ∨
        ((pairs.foldl
          (fun acc2 ij =>
            let dist := distR (pts.getD ij.1 (0, 0)) (pts.getD ij.2 (0, 0))
            if acc2.1 < dist then
              (dist, pts.getD ij.1 (0, 0), pts.getD ij.2 (0, 0))
            else acc2) acc).2.1 ∈ pts ∧
         (pairs.foldl
          (fun acc2 ij =>
            let dist := distR (pts.getD ij.1 (0, 0)) (pts.getD ij.2 (0, 0))
            if acc2.1 < dist then
              (dist, pts.getD ij.1 (0, 0), pts.getD ij.2 (0, 0))
            else acc2) acc).2.2 ∈ pts ∧
         (pairs.foldl
          (fun acc2 ij =>
            let dist := distR (pts.getD ij.1 (0, 0)) (pts.getD ij.2 (0, 0))
            if acc2.1 < dist then
              (dist, pts.getD ij.1 (0, 0), pts.getD ij.2 (0, 0))
            else acc2) acc).1 =
           distR ((pairs.foldl
          (fun acc2 ij =>
            let dist := distR (pts.getD ij.1 (0, 0)) (pts.getD ij.2 (0, 0))
            if acc2.1 < dist then
              (dist, pts.getD ij.1 (0, 0), pts.getD ij.2 (0, 0))
            else acc2) acc).2.1) ((pairs.foldl
          (fun acc2 ij =>
            let dist := distR (pts.getD ij.1 (0, 0)) (pts.getD ij.2 (0, 0))
            if acc2.1 < dist then
              (dist, pts.getD ij.1 (0, 0), pts.getD ij.2 (0, 0))
            else acc2) acc).2.2))) ∧
      0 ≤ (pairs.foldl
          (fun acc2 ij =>
            let dist := distR (pts.getD ij.1 (0, 0)) (pts.getD ij.2 (0, 0))
            if acc2.1 < dist then
              (dist, pts.getD ij.1 (0, 0), pts.getD ij.2 (0, 0))
            else acc2) acc).1 ∧
      acc.1 ≤ (pairs.foldl
          (fun acc2 ij =>
            let dist := distR (pts.getD ij.1 (0, 0)) (pts.getD ij.2 (0, 0))
            if acc2.1 < dist then
              (dist, pts.getD ij.1 (0, 0), pts.getD ij.2 (0, 0))
            else acc2) acc).1 ∧
      ∀ ij ∈ pairs, distR (pts.getD ij.1 (0, 0)) (pts.getD ij.2 (0, 0)) ≤
        (pairs.foldl
          (fun acc2 ij =>
            let dist := distR (pts.getD ij.1 (0, 0)) (pts.getD ij.2 (0, 0))
            if acc2.1 < dist then
              (dist, pts.getD ij.1 (0, 0), pts.getD ij.2 (0, 0))
            else acc2) acc).1 := by
  intro pairs
  induction pairs with
  | nil =>
    intro acc hrange hinv hnn
    refine ⟨hinv, hnn, le_refl _, ?_⟩
    intro ij hij
    simp at hij
  | cons ij0 rest ih =>
    intro acc hrange hinv hnn
    rw [List.foldl_cons]
    have hr0 := hrange ij0 (List.mem_cons_self _ _)
    by_cases hlt : acc.1 < distR (pts.getD ij0.1 (0, 0)) (pts.getD ij0.2 (0, 0))
    · dsimp only
      rw [if_pos hlt]
      obtain ⟨hinv2, hnn2, hle2, hall2⟩ :=
        ih (distR (pts.getD ij0.1 (0, 0)) (pts.getD ij0.2 (0, 0)),
            pts.getD ij0.1 (0, 0), pts.getD ij0.2 (0, 0))
          (fun ij hij => hrange ij (List.mem_cons_of_mem _ hij))
          (Or.inr ⟨getD_mem_of_lt pts ij0.1 hr0.1, getD_mem_of_lt pts ij0.2 hr0.2, rfl⟩)
          (distR_nonneg _ _)
      refine ⟨hinv2, hnn2, le_trans (le_of_lt hlt) hle2, ?_⟩
      intro ij hij
      rcases List.mem_cons.mp hij with h | h
      · subst h
        exact hle2
      · exact hall2 ij h
    · dsimp only
      rw [if_neg hlt]
      obtain ⟨hinv2, hnn2, hle2, hall2⟩ := ih _ (fun ij hij => hrange ij (List.mem_cons_of_mem _ hij))
        hinv hnn
      refine ⟨hinv2, hnn2, hle2, ?_⟩
      intro ij hij
      rcases List.mem_cons.mp hij with h | h
      · subst h
        exact le_trans (not_lt.mp hlt) hle2
      · exact hall2 ij h

theorem max_dist_pair_spec (pts : List Point) (hlen : 2 ≤ pts.length) :
    (max_dist_pair pts).2.1 ∈ pts ∧ (max_dist_pair pts).2.2 ∈ pts ∧
    (max_dist_pair pts).1 = distR (max_dist_pair pts).2.1 (max_dist_pair pts).2.2 ∧
    ∀ p ∈ pts, ∀ q ∈ pts, distR p q ≤ (max_dist_pair pts).1 := by
  have hrange : ∀ ij ∈ pairIndices pts.length,
      ij.1 < pts.length ∧ ij.2 < pts.length := by
    intro ij hij
    obtain ⟨h1, h2⟩ := (mem_pairIndices pts.length ij.1 ij.2).mp hij
    exact ⟨lt_trans h1 h2, h2⟩
  obtain ⟨hinv, hnn, -, hall⟩ := max_dist_fold_spec pts (pairIndices pts.length)
    (0, pts.getD 0 (0, 0), pts.getD 1 (0, 0)) hrange (Or.inl rfl) le_rfl
  have h01 : (0, 1) ∈ pairIndices pts.length :=
    (mem_pairIndices pts.length 0 1).mpr ⟨by omega, by omega⟩
  have hbound : ∀ p ∈ pts, ∀ q ∈ pts, distR p q ≤ (max_dist_pair pts).1 := by
    intro p hp q hq
    obtain ⟨a, ha, rfl⟩ := List.getElem_of_mem hp
    obtain ⟨b, hb, rfl⟩ := List.getElem_of_mem hq
    rcases lt_trichotomy a b with h | h | h
    · have := hall (a, b) ((mem_pairIndices pts.length a b).mpr ⟨h, hb⟩)
      rw [List.getD_eq_getElem _ _ ha, List.getD_eq_getElem _ _ hb] at this
      exact this
    · subst h
      rw [show distR pts[a] pts[a] = 0 from (distR_eq_zero_iff _ _).mpr rfl]
      exact hnn
    · have := hall (b, a) ((mem_pairIndices pts.length b a).mpr ⟨h, ha⟩)
      rw [List.getD_eq_getElem _ _ hb, List.getD_eq_getElem _ _ ha] at this
      rw [distR_comm]
      exact this
  rcases hinv with hini | ⟨hm1, hm2, hm3⟩
  · have h0 : pts.getD 0 (0, 0) ∈ pts := getD_mem_of_lt pts 0 (by omega)
    have h1 : pts.getD 1 (0, 0) ∈ pts := getD_mem_of_lt pts 1 (by omega)
    have hd01 : distR (pts.getD 0 (0, 0)) (pts.getD 1 (0, 0)) ≤ (max_dist_pair pts).1 := by
      have := hall (0, 1) h01
      exact this
    have hzero : (max_dist_pair pts).1 = 0 := by
      rw [show max_dist_pair pts = (0, pts.getD 0 (0, 0), pts.getD 1 (0, 0)) from hini]
    have hd0 : distR (pts.getD 0 (0, 0)) (pts.getD 1 (0, 0)) = 0 :=
      le_antisymm (by rw [← hzero]; exact hd01) (distR_nonneg _ _)
    refine ⟨?_, ?_, ?_, hbound⟩
    · rw [show max_dist_pair pts = (0, pts.getD 0 (0, 0), pts.getD 1 (0, 0)) from hini]
      exact h0
    · rw [show max_dist_pair pts = (0, pts.getD 0 (0, 0), pts.getD 1 (0, 0)) from hini]
      exact h1
    · rw [show max_dist_pair pts = (0, pts.getD 0 (0, 0), pts.getD 1 (0, 0)) from hini]
      exact hd0.symm
  · exact ⟨hm1, hm2, hm3, hbound⟩

theorem merge_group_spec (line1 : Line) (grouped : List Line) (h : grouped ≠ []) :
    (merge_group line1 grouped).start ∈
      ((line1 :: grouped).flatMap (fun l => [l.start, l.end_])) ∧
    (merge_group line1 grouped).end_ ∈
      ((line1 :: grouped).flatMap (fun l => [l.start, l.end_])) ∧
    (merge_group line1 grouped).angle = line1.angle ∧
    (merge_group line1 grouped).thickness_px = none ∧
    (merge_group line1 grouped).length =
      distR (merge_group line1 grouped).start (merge_group line1 grouped).end_ ∧
    ∀ p ∈ ((line1 :: grouped).flatMap (fun l => [l.start, l.end_])),
      ∀ q ∈ ((line1 :: grouped).flatMap (fun l => [l.start, l.end_])),
        distR p q ≤ (merge_group line1 grouped).length := by
  have hne : ¬ grouped.isEmpty := by
    cases grouped with
    | nil => exact absurd rfl h
    | cons x xs => simp
  have hlen : 2 ≤ ((line1 :: grouped).flatMap (fun l => [l.start, l.end_])).length := by
    rw [List.flatMap_cons]
    simp
  obtain ⟨hp1, hp2, heq, hmax⟩ :=
    max_dist_pair_spec ((line1 :: grouped).flatMap (fun l => [l.start, l.end_])) hlen
  unfold merge_group
  rw [if_neg hne]
  exact ⟨hp1, hp2, rfl, rfl, heq, hmax⟩

theorem max_dist_pair_example :
    max_dist_pair [((0 : ℚ), (0 : ℚ)), (5, 0), (6, 0), (10, 0)] =
      (((10 : ℚ) : ℝ), ((0 : ℚ), (0 : ℚ)), ((10 : ℚ), (0 : ℚ))) := by
  have d01 : distR ((0 : ℚ), (0 : ℚ)) (5, 0) = ((5 : ℚ) : ℝ) :=
    distR_eq_of_sq _ _ 5 (by norm_num [sqDist]) (by norm_num)
  have d02 : distR ((0 : ℚ), (0 : ℚ)) (6, 0) = ((6 : ℚ) : ℝ) :=
    distR_eq_of_sq _ _ 6 (by norm_num [sqDist]) (by norm_num)
  have d03 : distR ((0 : ℚ), (0 : ℚ)) (10, 0) = ((10 : ℚ) : ℝ) :=
    distR_eq_of_sq _ _ 10 (by norm_num [sqDist]) (by norm_num)
  have d12 : distR ((5 : ℚ), (0 : ℚ)) (6, 0) = ((1 : ℚ) : ℝ) :=
    distR_eq_of_sq _ _ 1 (by norm_num [sqDist]) (by norm_num)
  have d13 : distR ((5 : ℚ), (0 : ℚ)) (10, 0) = ((5 : ℚ) : ℝ) :=
    distR_eq_of_sq _ _ 5 (by norm_num [sqDist]) (by norm_num)
  have d23 : distR ((6 : ℚ), (0 : ℚ)) (10, 0) = ((4 : ℚ) : ℝ) :=
    distR_eq_of_sq _ _ 4 (by norm_num [sqDist]) (by norm_num)
  unfold max_dist_pair
  rw [show pairIndices
      ([((0 : ℚ), (0 : ℚ)), (5, 0), (6, 0), (10, 0)].length) =
      [(0, 1), (0, 2), (0, 3), (1, 2), (1, 3), (2, 3)] from rfl]
  simp only [List.foldl_cons, List.foldl_nil]
  rw [show [((0 : ℚ), (0 : ℚ)), (5, 0), (6, 0), (10, 0)].getD 0 (0, 0) =
      ((0 : ℚ), (0 : ℚ)) from rfl,
    show [((0 : ℚ), (0 : ℚ)), (5, 0), (6, 0), (10, 0)].getD 1 (0, 0) =
      ((5 : ℚ), (0 : ℚ)) from rfl,
    show [((0 : ℚ), (0 : ℚ)), (5, 0), (6, 0), (10, 0)].getD 2 (0, 0) =
      ((6 : ℚ), (0 : ℚ)) from rfl,
    show [((0 : ℚ), (0 : ℚ)), (5, 0), (6, 0), (10, 0)].getD 3 (0, 0) =
      ((10 : ℚ), (0 : ℚ)) from rfl]
  rw [d01, d02, d03, d12, d13, d23]
  norm_num

theorem merge_collinear_lines_example :
    merge_collinear_lines [segA, segB] 5 20 =
      [{ start := (0, 0), end_ := (10, 0), angle := 0, length := ((10 : ℚ) : ℝ),
         thickness_px := none }] := by
  have hcc : collinear_close segA segB 5 20 := by
    constructor
    · norm_num [angle_diff_norm, segA, segB]
    · have d12 : distR segA.end_ segB.start = ((1 : ℚ) : ℝ) :=
        distR_eq_of_sq _ _ 1 (by norm_num [sqDist, segA, segB]) (by norm_num)
      apply min_lt_iff.mpr
      left
      rw [d12]
      norm_num
  have hcu : merge_collect segA 5 20 [(1, segB)] (insert 0 ∅) =
      ([(1, segB)], insert 1 (insert 0 ∅)) := by
    unfold merge_collect
    rw [List.foldl_cons, List.foldl_nil]
    dsimp only
    rw [if_neg (by decide : ¬ ((1 : ℕ) ∈ (insert 0 ∅ : Finset ℕ))), if_pos hcc]
    rfl
  have hgo2 : merge_collinear_go 5 20 [(1, segB)] (insert 1 (insert 0 ∅)) = [] := by
    rw [merge_collinear_go]
    rw [if_pos (by decide : (1 : ℕ) ∈ (insert 1 (insert 0 ∅) : Finset ℕ))]
    rfl
  have hmg : merge_group segA [segB] =
      { start := (0, 0), end_ := (10, 0), angle := 0, length := ((10 : ℚ) : ℝ),
        thickness_px := none } := by
    unfold merge_group
    rw [if_neg (by decide : ¬ ([segB].isEmpty = true))]
    rw [show ((segA :: [segB]).flatMap (fun l => [l.start, l.end_])) =
        [((0 : ℚ), (0 : ℚ)), (5, 0), (6, 0), (10, 0)] from rfl]
    dsimp only
    rw [max_dist_pair_example]
    rfl
  unfold merge_collinear_lines
  rw [show ([segA, segB].enum) = [(0, segA), (1, segB)] from rfl]
  rw [if_neg (by decide : ¬ ([segA, segB].isEmpty = true))]
  rw [merge_collinear_go]
  rw [if_neg (by decide : ¬ ((0 : ℕ) ∈ (∅ : Finset ℕ)))]
  dsimp only
  rw [hcu]
  dsimp only
  rw [show List.map Prod.snd [(1, segB)] = [segB] from rfl]
  rw [hgo2, hmg]

/-- C4: every group of two or more segments collapses to one segment whose
endpoints belong to the group's endpoint set and realize the maximum
pairwise endpoint distance, whose angle is the first member's angle, and
whose length is recomputed as the distance between the two chosen
endpoints; concretely, merging `(0,0)-(5,0)` and `(6,0)-(10,0)` (both at
angle 0, gap 1 px < 20 px) with the default thresholds yields exactly the
single segment `(0,0)-(10,0)` of length 10. -/
theorem merge_group_extreme_points :
    (∀ (line1 : Line) (grouped : List Line), grouped ≠ [] →
      (merge_group line1 grouped).start ∈
        ((line1 :: grouped).flatMap (fun l => [l.start, l.end_])) ∧
      (merge_group line1 grouped).end_ ∈
        ((line1 :: grouped).flatMap (fun l => [l.start, l.end_])) ∧
      (merge_group line1 grouped).angle = line1.angle ∧
      (merge_group line1 grouped).length =
        distR (merge_group line1 grouped).start (merge_group line1 grouped).end_ ∧
      (∀ p ∈ ((line1 :: grouped).flatMap (fun l => [l.start, l.end_])),
        ∀ q ∈ ((line1 :: grouped).flatMap (fun l => [l.start, l.end_])),
          distR p q ≤ (merge_group line1 grouped).length)) ∧
    merge_collinear_lines [segA, segB] 5 20 =
      [{ start := (0, 0), end_ := (10, 0), angle := 0, length := ((10 : ℚ) : ℝ),
         thickness_px := none }] := by
  constructor
  · intro line1 grouped h
    obtain ⟨h1, h2, h3, -, h5, h6⟩ := merge_group_spec line1 grouped h
    exact ⟨h1, h2, h3, h5, h6⟩
  · exact merge_collinear_lines_example

/-- C4 witness: the hypothesis-bearing conjunct applied to the concrete
group `segA :: [segB]`. -/
theorem merge_group_extreme_points_witness :
    (merge_group segA [segB]).angle = segA.angle ∧
    (merge_group segA [segB]).length =
      distR (merge_group segA [segB]).start (merge_group segA [segB]).end_ :=
  ⟨(merge_group_extreme_points.1 segA [segB] (List.cons_ne_nil _ _)).2.2.1,
   (merge_group_extreme_points.1 segA [segB] (List.cons_ne_nil _ _)).2.2.2.1⟩

theorem merge_collect_eq_filter (line1 : Line) (a d : ℚ) :
    ∀ (rest : List (ℕ × Line)) (acc_l : List (ℕ × Line)) (used : Finset ℕ),
      (rest.map Prod.fst).Nodup → (∀ jl ∈ rest, jl.1 ∉ used) →
      (rest.foldl (fun acc jl =>
          if jl.1 ∈ acc.2 then acc
          else if collinear_close line1 jl.2 a d then
            (acc.1 ++ [jl], insert jl.1 acc.2)
          else acc) (acc_l, used)).1 =
        acc_l ++ rest.filter (fun jl => decide (collinear_close line1 jl.2 a d)) := by
  intro rest
  induction rest with
  | nil =>
    intro acc_l used hnd hfresh
    simp
  | cons jl rest ih =>
    intro acc_l used hnd hfresh
    rw [List.foldl_cons]
    dsimp only
    rw [if_neg (hfresh jl (List.mem_cons_self _ _))]
    have hnd2 : (rest.map Prod.fst).Nodup := by
      rw [List.map_cons] at hnd
      exact hnd.of_cons
    have hhead : jl.1 ∉ rest.map Prod.fst := by
      rw [List.map_cons] at hnd
      exact (List.nodup_cons.mp hnd).1
    by_cases hcc : collinear_close line1 jl.2 a d
    · rw [if_pos hcc]
      have hfresh2 : ∀ kl ∈ rest, kl.1 ∉ insert jl.1 used := by
        intro kl hkl
        rw [Finset.mem_insert]
        rintro (h | h)
        · exact hhead (h ▸ List.mem_map_of_mem Prod.fst hkl)
        · exact hfresh kl (List.mem_cons_of_mem _ hkl) h
      rw [ih (acc_l ++ [jl]) (insert jl.1 used) hnd2 hfresh2]
      rw [List.filter_cons, if_pos (decide_eq_true hcc)]
      simp
    · rw [if_neg hcc]
      have hfresh2 : ∀ kl ∈ rest, kl.1 ∉ used :=
        fun kl hkl => hfresh kl (List.mem_cons_of_mem _ hkl)
      rw [ih acc_l used hnd2 hfresh2]
      rw [List.filter_cons, if_neg (by simp [hcc])]

/-- C3 (amended): in one pass of `merge_collinear_lines`, with
already-used indices excluded, the segments collected into the current
group are exactly those satisfying `collinear_close`: angle difference
(normalized as in the code) below the angle tolerance AND the minimum of
the TWO endpoint pairings `end₁-start₂`, `start₁-end₂` below the distance
tolerance.  The start-start and end-end pairings are not examined. -/
theorem merge_collect_group_criterion (line1 : Line) (a d : ℚ)
    (rest : List (ℕ × Line)) (used : Finset ℕ)
    (hnd : (rest.map Prod.fst).Nodup) (hfresh : ∀ jl ∈ rest, jl.1 ∉ used) :
    (merge_collect line1 a d rest used).1 =
      rest.filter (fun jl => decide (collinear_close line1 jl.2 a d)) := by
  unfold merge_collect
  rw [merge_collect_eq_filter line1 a d rest [] used hnd hfresh]
  simp

/-- C3 witness: the amended criterion applied to the concrete pass that
groups `segB` with `segA`. -/
theorem merge_collect_group_criterion_witness :
    (merge_collect segA 5 20 [(1, segB)] (insert 0 ∅)).1 =
      [(1, segB)].filter (fun jl => decide (collinear_close segA jl.2 5 20)) :=
  merge_collect_group_criterion segA 5 20 [(1, segB)] (insert 0 ∅)
    (by simp)
    (by
      intro jl hjl
      rw [List.mem_singleton.mp hjl]
      decide)

/-- C3 counterexample: `lineL1 = (0,0)-(100,0)` and `lineL2 = (0,1)-(100,1)`
(both at angle 0) satisfy the claim's grouping criterion — the angle
difference is 0 < 5 and the start-start endpoint pair is 1 px apart
(< 20) — yet `merge_collinear_lines` does NOT place them in one group (the
output still has two segments), because the code's endpoint test examines
only the pairings `end₁-start₂` and `start₁-end₂`, which are both ≈ 100 px
here; the claim's quantification over all four endpoint pairings is
false of the code. -/
theorem merge_misses_close_start_start_pair :
    angle_diff_norm lineL1.angle lineL2.angle < 5 ∧
    distR lineL1.start lineL2.start < 20 ∧
    ¬ collinear_close lineL1 lineL2 5 20 ∧
    merge_collinear_lines [lineL1, lineL2] 5 20 = [lineL1, lineL2] := by
  have hss : distR lineL1.start lineL2.start = ((1 : ℚ) : ℝ) :=
    distR_eq_of_sq _ _ 1 (by norm_num [sqDist, lineL1, lineL2]) (by norm_num)
  have hnc : ¬ collinear_close lineL1 lineL2 5 20 := by
    rintro ⟨-, hd⟩
    rcases min_lt_iff.mp hd with h | h
    · rw [distR_lt_iff _ _ 20 (by norm_num)] at h
      norm_num [sqDist, lineL1, lineL2] at h
    · rw [distR_lt_iff _ _ 20 (by norm_num)] at h
      norm_num [sqDist, lineL1, lineL2] at h
  refine ⟨by norm_num [angle_diff_norm, lineL1, lineL2], by rw [hss]; norm_num, hnc, ?_⟩
  have hcu : merge_collect lineL1 5 20 [(1, lineL2)] (insert 0 ∅) =
      ([], insert 0 ∅) := by
    unfold merge_collect
    rw [List.foldl_cons, List.foldl_nil]
    dsimp only
    rw [if_neg (by decide : ¬ ((1 : ℕ) ∈ (insert 0 ∅ : Finset ℕ))), if_neg hnc]
  have hgo2 : merge_collinear_go 5 20 [(1, lineL2)] (insert 0 ∅) = [lineL2] := by
    rw [merge_collinear_go]
    rw [if_neg (by decide : ¬ ((1 : ℕ) ∈ (insert 0 ∅ : Finset ℕ)))]
    dsimp only
    rw [show merge_collect lineL2 5 20 [] (insert 1 (insert 0 ∅)) =
        ([], insert 1 (insert 0 ∅)) from rfl]
    dsimp only
    rw [show List.map Prod.snd ([] : List (ℕ × Line)) = [] from rfl]
    rw [show merge_group lineL2 [] = lineL2 from by unfold merge_group; rw [if_pos (by rfl : ([] : List Line).isEmpty = true)]]
    rw [show merge_collinear_go 5 20 ([] : List (ℕ × Line)) (insert 1 (insert 0 ∅)) =
        [] from rfl]
  unfold merge_collinear_lines
  rw [show ([lineL1, lineL2].enum) = [(0, lineL1), (1, lineL2)] from rfl]
  rw [if_neg (by decide : ¬ ([lineL1, lineL2].isEmpty = true))]
  rw [merge_collinear_go]
  rw [if_neg (by decide : ¬ ((0 : ℕ) ∈ (∅ : Finset ℕ)))]
  dsimp only
  rw [hcu]
  dsimp only
  rw [show List.map Prod.snd ([] : List (ℕ × Line)) = [] from rfl]
  rw [show merge_group lineL1 [] = lineL1 from by unfold merge_group; rw [if_pos (by rfl : ([] : List Line).isEmpty = true)]]
  rw [hgo2]

/-! ### Claim C7: wall-segment creation invariants -/

theorem atan2_range (y x : ℝ) : -Real.pi < atan2 y x ∧ atan2 y x ≤ Real.pi := by
  have hpi : 0 < Real.pi := Real.pi_pos
  have hub : ∀ z : ℝ, Real.arctan z < Real.pi / 2 := Real.arctan_lt_pi_div_two
  have hlb : ∀ z : ℝ, -(Real.pi / 2) < Real.arctan z := Real.neg_pi_div_two_lt_arctan
  unfold atan2
  split_ifs with h1 h2 h3 h4 h5
  · exact ⟨by linarith [hlb (y / x)], by linarith [hub (y / x)]⟩
  · have hq : y / x ≤ 0 := div_nonpos_of_nonneg_of_nonpos h3 (le_of_lt h2)
    have harc : Real.arctan (y / x) ≤ 0 := by
      have := Real.arctan_strictMono.monotone hq
      rwa [Real.arctan_zero] at this
    exact ⟨by linarith [hlb (y / x)], by linarith⟩
  · have hy : y < 0 := lt_of_not_le h3
    have hq : 0 < y / x := div_pos_of_neg_of_neg hy h2
    have harc : 0 < Real.arctan (y / x) := by
      have := Real.arctan_strictMono hq
      rwa [Real.arctan_zero] at this
    exact ⟨by linarith, by linarith [hub (y / x)]⟩
  · exact ⟨by linarith, by linarith⟩
  · exact ⟨by linarith, by linarith⟩
  · exact ⟨by linarith, by linarith⟩

theorem round_real_mono {x y : ℝ} (h : x ≤ y) : round x ≤ round y := by
  rw [round_eq, round_eq]
  exact Int.floor_mono (by linarith)

theorem pyRound2R_bounds {x : ℝ} (h0 : 0 ≤ x) (h180 : x ≤ 180) :
    0 ≤ pyRound2R x ∧ pyRound2R x ≤ 180 := by
  have hl : round ((0 : ℝ)) ≤ round (x * 100) := round_real_mono (by nlinarith)
  have hu : round (x * 100) ≤ round ((18000 : ℝ)) := round_real_mono (by nlinarith)
  rw [round_zero] at hl
  rw [show ((18000 : ℝ)) = ((18000 : ℤ) : ℝ) by norm_num, round_intCast] at hu
  unfold pyRound2R
  constructor
  · apply div_nonneg
    · exact_mod_cast hl
    · norm_num
  · rw [div_le_iff₀ (by norm_num : (0 : ℚ) < 100)]
    calc ((round (x * 100) : ℤ) : ℚ) ≤ ((18000 : ℤ) : ℚ) := by exact_mod_cast hu
    _ = 180 * 100 := by norm_num

theorem toWallLine_angle_range (q : ℤ × ℤ × ℤ × ℤ) (t : ℕ) :
    0 ≤ (toWallLine q t).angle ∧ (toWallLine q t).angle ≤ 180 := by
  have hpi := Real.pi_pos
  obtain ⟨hg, hl⟩ := atan2_range ((q.2.2.2 - q.2.1 : ℤ) : ℝ) ((q.2.2.1 - q.1 : ℤ) : ℝ)
  have e : (toWallLine q t).angle =
      pyRound2R
        (if atan2 ((q.2.2.2 - q.2.1 : ℤ) : ℝ) ((q.2.2.1 - q.1 : ℤ) : ℝ) * 180 / Real.pi < 0
         then atan2 ((q.2.2.2 - q.2.1 : ℤ) : ℝ) ((q.2.2.1 - q.1 : ℤ) : ℝ) * 180 / Real.pi + 180
         else atan2 ((q.2.2.2 - q.2.1 : ℤ) : ℝ) ((q.2.2.1 - q.1 : ℤ) : ℝ) * 180 / Real.pi) := rfl
  rw [e]
  have hub : atan2 ((q.2.2.2 - q.2.1 : ℤ) : ℝ) ((q.2.2.1 - q.1 : ℤ) : ℝ) * 180 / Real.pi ≤ 180 := by
    rw [div_le_iff₀ hpi]
    nlinarith
  have hlb : -180 < atan2 ((q.2.2.2 - q.2.1 : ℤ) : ℝ) ((q.2.2.1 - q.1 : ℤ) : ℝ) * 180 / Real.pi := by
    rw [lt_div_iff₀ hpi]
    nlinarith
  split_ifs with hneg
  · exact pyRound2R_bounds (by linarith) (by linarith)
  · exact pyRound2R_bounds (by linarith) (by linarith)

theorem toWallLine_length_eq (q : ℤ × ℤ × ℤ × ℤ) (t : ℕ) :
    (toWallLine q t).length =
      ((pyRound2R (distR (toWallLine q t).start (toWallLine q t).end_) : ℚ) : ℝ) := by
  have e2 : distR (toWallLine q t).start (toWallLine q t).end_ =
      Real.sqrt (((q.2.2.1 - q.1 : ℤ) : ℝ) ^ 2 + ((q.2.2.2 - q.2.1 : ℤ) : ℝ) ^ 2) := by
    show distR ((q.1 : ℚ), (q.2.1 : ℚ)) ((q.2.2.1 : ℚ), (q.2.2.2 : ℚ)) = _
    unfold distR
    congr 1
    unfold sqDist
    push_cast
    ring
  rw [e2]
  rfl

theorem merge_collinear_go_mem (a d : ℚ) :
    ∀ (ls : List (ℕ × Line)) (used : Finset ℕ) (w : Line),
      w ∈ merge_collinear_go a d ls used →
      ∃ (line1 : Line) (grouped : List Line),
        w = merge_group line1 grouped ∧ line1 ∈ ls.map Prod.snd := by
  intro ls
  induction ls with
  | nil =>
    intro used w h
    simp [merge_collinear_go] at h
  | cons il rest ih =>
    obtain ⟨i, line1⟩ := il
    intro used w h
    rw [merge_collinear_go] at h
    by_cases hu : i ∈ used
    · rw [if_pos hu] at h
      obtain ⟨l1, g, he, hm⟩ := ih used w h
      exact ⟨l1, g, he, by rw [List.map_cons]; exact List.mem_cons_of_mem _ hm⟩
    · rw [if_neg hu] at h
      dsimp only at h
      rcases List.mem_cons.mp h with h2 | h2
      · exact ⟨line1, _, h2, by rw [List.map_cons]; exact List.mem_cons_self _ _⟩
      · obtain ⟨l1, g, he, hm⟩ := ih _ w h2
        exact ⟨l1, g, he, by rw [List.map_cons]; exact List.mem_cons_of_mem _ hm⟩

/-- C7 (amended): every wall segment produced by `detect_walls` has an
angle normalized into `[0, 180]` degrees (so a direction and its
180°-opposite agree), and its length is the euclidean distance between its
endpoints rounded to 2 decimals — for raw Hough lines passed through
unmerged — or the exact recomputed euclidean distance, for segments
produced by collapsing a merge group.  The claimed exact equality
`length == euclidean(start, end)` fails for the rounded raw lines. -/
theorem detect_walls_length_and_angle (hough_lines : List (ℤ × ℤ × ℤ × ℤ)) (t : ℕ) :
    ∀ w ∈ detect_walls hough_lines t,
      (0 ≤ w.angle ∧ w.angle ≤ 180) ∧
      (w.length = ((pyRound2R (distR w.start w.end_) : ℚ) : ℝ) ∨
        w.length = distR w.start w.end_) := by
  intro w hw
  unfold detect_walls merge_collinear_lines at hw
  by_cases he : (hough_lines.map (fun l => toWallLine l t)).isEmpty
  · rw [if_pos he] at hw
    simp at hw
  · rw [if_neg he] at hw
    obtain ⟨l1, g, rfl, hm⟩ := merge_collinear_go_mem 5 20 _ ∅ _ hw
    rw [List.enum_map_snd] at hm
    obtain ⟨q, hq, rfl⟩ := List.mem_map.mp hm
    by_cases hg : g = []
    · subst hg
      have hone : merge_group (toWallLine q t) [] = toWallLine q t := by
        unfold merge_group
        rw [if_pos (by rfl : ([] : List Line).isEmpty = true)]
      rw [hone]
      exact ⟨toWallLine_angle_range q t, Or.inl (toWallLine_length_eq q t)⟩
    · obtain ⟨-, -, hangle, -, hlen, -⟩ := merge_group_spec (toWallLine q t) g hg
      refine ⟨?_, Or.inr hlen⟩
      rw [hangle]
      exact toWallLine_angle_range q t

theorem detect_walls_single :
    detect_walls [(0, 0, 1, 1)] 12 = [toWallLine (0, 0, 1, 1) 12] := by
  unfold detect_walls
  rw [show List.map (fun l => toWallLine l 12) [(0, 0, 1, 1)] =
      [toWallLine (0, 0, 1, 1) 12] from rfl]
  unfold merge_collinear_lines
  rw [if_neg (by simp : ¬ ([toWallLine (0, 0, 1, 1) 12].isEmpty = true))]
  rw [show ([toWallLine (0, 0, 1, 1) 12].enum) = [(0, toWallLine (0, 0, 1, 1) 12)] from rfl]
  rw [merge_collinear_go]
  rw [if_neg (by decide : ¬ ((0 : ℕ) ∈ (∅ : Finset ℕ)))]
  dsimp only
  rw [show merge_collect (toWallLine (0, 0, 1, 1) 12) 5 20 [] (insert 0 ∅) =
      ([], insert 0 ∅) from rfl]
  dsimp only
  rw [show List.map Prod.snd ([] : List (ℕ × Line)) = [] from rfl]
  rw [show merge_group (toWallLine (0, 0, 1, 1) 12) [] = toWallLine (0, 0, 1, 1) 12 from by
    unfold merge_group
    rw [if_pos (by rfl : ([] : List Line).isEmpty = true)]]
  rw [show merge_collinear_go 5 20 ([] : List (ℕ × Line)) (insert 0 ∅) = [] from rfl]

/-- C7 counterexample: the raw Hough line `(0,0)-(1,1)` passes through
`detect_walls` unmerged, and its stored length — `round(sqrt(2), 2) =
1.41` — differs from the exact euclidean distance `sqrt 2` of its
endpoints, refuting `length == euclidean(start, end)` exactly at
creation. -/
theorem detect_walls_length_not_exact :
    detect_walls [(0, 0, 1, 1)] 12 = [toWallLine (0, 0, 1, 1) 12] ∧
    (toWallLine (0, 0, 1, 1) 12).length ≠
      distR (toWallLine (0, 0, 1, 1) 12).start (toWallLine (0, 0, 1, 1) 12).end_ := by
  refine ⟨detect_walls_single, ?_⟩
  have e2 : distR (toWallLine (0, 0, 1, 1) 12).start (toWallLine (0, 0, 1, 1) 12).end_ =
      Real.sqrt 2 := by
    show distR ((0 : ℚ), (0 : ℚ)) ((1 : ℚ), (1 : ℚ)) = Real.sqrt 2
    unfold distR
    congr 1
    norm_num [sqDist]
  have e1 : (toWallLine (0, 0, 1, 1) 12).length =
      ((pyRound2R (Real.sqrt 2) : ℚ) : ℝ) := by
    rw [show (toWallLine (0, 0, 1, 1) 12).length =
      ((pyRound2R (Real.sqrt (((1 : ℤ) : ℝ) ^ 2 + ((1 : ℤ) : ℝ) ^ 2)) : ℚ) : ℝ) from rfl]
    norm_num
  have hlow : (141 / 100 : ℝ) ≤ Real.sqrt 2 :=
    (Real.le_sqrt (by norm_num) (by norm_num)).mpr (by norm_num)
  have hhigh : Real.sqrt 2 < 1415 / 1000 := by
    rw [Real.sqrt_lt' (by norm_num : (0 : ℝ) < 1415 / 1000)]
    norm_num
  have hr : round (Real.sqrt 2 * 100) = 141 := by
    rw [round_eq]
    apply Int.floor_eq_iff.mpr
    constructor
    · push_cast
      nlinarith
    · push_cast
      nlinarith
  have e3 : (pyRound2R (Real.sqrt 2) : ℚ) = 141 / 100 := by
    unfold pyRound2R
    rw [hr]
    norm_num
  rw [e1, e2, e3]
  intro heq
  have hsq : ((141 / 100 : ℚ) : ℝ) ^ 2 = 2 := by
    rw [heq]
    exact Real.sq_sqrt (by norm_num)
  norm_num at hsq

/-- C7 witness: the amended invariants at the concrete raw line
`(0,0)-(1,1)`. -/
theorem detect_walls_length_and_angle_witness :
    (0 ≤ (toWallLine (0, 0, 1, 1) 12).angle ∧
      (toWallLine (0, 0, 1, 1) 12).angle ≤ 180) ∧
    ((toWallLine (0, 0, 1, 1) 12).length =
        ((pyRound2R (distR (toWallLine (0, 0, 1, 1) 12).start
          (toWallLine (0, 0, 1, 1) 12).end_) : ℚ) : ℝ) ∨
      (toWallLine (0, 0, 1, 1) 12).length =
        distR (toWallLine (0, 0, 1, 1) 12).start (toWallLine (0, 0, 1, 1) 12).end_) :=
  detect_walls_length_and_angle [(0, 0, 1, 1)] 12 (toWallLine (0, 0, 1, 1) 12)
    (by rw [detect_walls_single]; exact List.mem_singleton.mpr rfl)
